import Mathlib

/-!
Verification of the queue record projection and reconciliation engine of
`bsgui` against its natural-language specification.

The Python sources embedded here are `src/bsgui/core/queue_item_utils.py`,
`src/bsgui/core/qserver_controller.py` (the `PlanParameter` dataclass) and
`src/bsgui/ui/queue_monitor.py` (the pure state-transition slices of
`QueueMonitorWidget`).  Python values are modelled by the `Value` type
below; Python `dict`s are association lists that preserve insertion order,
`deepcopy` is the identity on values, and in-place mutation is modelled by
returning the updated value.
-/

/-- Model of a Python value as it occurs in queue records: `None`, `bool`,
`int`, `float`, `str`, `list` and `dict`.  A float is carried as the literal
string accepted by `float(...)`: no claim in this development depends on
float arithmetic, only on whether parsing succeeds. -/
inductive Value where
  | null
  | bool (b : Bool)
  | int (n : Int)
  | float (lit : String)
  | str (s : String)
  | vlist (xs : List Value)
  | vmap (entries : List (String × Value))

/-- A Python `dict` with string keys: an insertion-ordered association list.
Keys of a real `dict` are unique; operations below use first-occurrence
semantics, which coincides with `dict` behaviour on duplicate-free lists. -/
abbrev PyDict := List (String × Value)

/-- Model of `m.get(k)` / `m[k]`: first binding of `k`. -/
def alookup (m : PyDict) (k : String) : Option Value :=
  match m with
  | [] => none
  | (k', v) :: rest => if k = k' then some v else alookup rest k

/-- Model of `k in m`. -/
def acontains (m : PyDict) (k : String) : Bool :=
  (alookup m k).isSome

/-- Model of `m[k] = v`: overwrite the first binding of `k` in place, else append
(the position a new key takes in an insertion-ordered `dict`). -/
def aset (m : PyDict) (k : String) (v : Value) : PyDict :=
  match m with
  | [] => [(k, v)]
  | (k', v') :: rest => if k = k' then (k, v) :: rest else (k', v') :: aset rest k v

/-- Model of `m.pop(k, None)`: drop the first binding of `k`. -/
def aremove (m : PyDict) (k : String) : PyDict :=
  match m with
  | [] => []
  | (k', v') :: rest => if k = k' then rest else (k', v') :: aremove rest k

/-- Model of `m.setdefault(k, v)`: insert `k ↦ v` only when `k` is absent (even when
`v` is `None`). -/
def asetdefault (m : PyDict) (k : String) (v : Value) : PyDict :=
  if acontains m k then m else aset m k v

/-- Python truthiness of a value (`bool(v)`). -/
def truthy : Value → Bool
  | .null => false
  | .bool b => b
  | .int n => n ≠ 0
  | .float lit => lit ≠ "0" && lit ≠ "0.0" && lit ≠ "-0.0"
  | .str s => s ≠ ""
  | .vlist xs => !xs.isEmpty
  | .vmap m => !m.isEmpty

/-- Python `a or b`: `a` when truthy, else `b`. -/
def pyOr (a b : Value) : Value :=
  if truthy a then a else b

mutual

/-- Model of `repr(v)` as used for elements inside containers: strings are quoted.
Faithful on `None`, booleans, integers and strings; the rendering of floats
and containers is approximated (float: its literal). -/
def pyStrRepr : Value → String
  | .str s => "'" ++ s ++ "'"
  | .null => "None"
  | .bool b => if b then "True" else "False"
  | .int n => toString n
  | .float lit => lit
  | .vlist xs => "[" ++ pyStrReprList xs ++ "]"
  | .vmap m => "\x7b" ++ pyStrReprEntries m ++ "\x7d"

def pyStrReprList : List Value → String
  | [] => ""
  | [x] => pyStrRepr x
  | x :: xs => pyStrRepr x ++ ", " ++ pyStrReprList xs

def pyStrReprEntries : List (String × Value) → String
  | [] => ""
  | [(k, v)] => "'" ++ k ++ "': " ++ pyStrRepr v
  | (k, v) :: xs => "'" ++ k ++ "': " ++ pyStrRepr v ++ ", " ++ pyStrReprEntries xs

end

/-- Model of `str(v)`.  Faithful on `None`, booleans, integers and strings — the
shapes uid fields actually take; the `repr`-style rendering of floats,
lists and dicts is approximated. -/
def pyStr : Value → String
  | .null => "None"
  | .bool b => if b then "True" else "False"
  | .int n => toString n
  | .float lit => lit
  | .str s => s
  | .vlist xs => "[" ++ pyStrReprList xs ++ "]"
  | .vmap m => "\x7b" ++ pyStrReprEntries m ++ "\x7d"

/-- Model of `text.strip()`: drop leading and trailing whitespace (`Char.isWhitespace`
stands for Python's whitespace class; the rare `\f`/`\v` cases are not
modelled). -/
def pyStrip (s : String) : String :=
  ⟨((s.data.dropWhile Char.isWhitespace).reverse.dropWhile Char.isWhitespace).reverse⟩

/-- Model of `s.split(".")`: split on every dot, keeping empty pieces (defined over
the character list so that it evaluates definitionally). -/
def pySplitDotAux : List Char → List Char → List String
  | [], acc => [⟨acc.reverse⟩]
  | '.' :: rest, acc => (⟨acc.reverse⟩ : String) :: pySplitDotAux rest []
  | c :: rest, acc => pySplitDotAux rest (c :: acc)

/-- Model of `s.split(".")`. -/
def pySplitDot (s : String) : List String :=
  pySplitDotAux s.data []

/-- Model of `s.lower()` (defined over the character list so that it evaluates
definitionally). -/
def pyToLower (s : String) : String :=
  ⟨s.data.map Char.toLower⟩

/-- Whether every character of `s` is whitespace (so `s.strip() == ""`,
including the empty string). -/
def allWhitespace (s : String) : Bool :=
  s.data.all Char.isWhitespace

/-- Digit run: `some n` when the list is one or more decimal digits with
value `n`. -/
def digitsVal (cs : List Char) : Option Nat :=
  if cs.isEmpty then none
  else if cs.all Char.isDigit then
    some (cs.foldl (fun acc c => acc * 10 + (c.toNat - '0'.toNat)) 0)
  else none

/-- Model of Python `int(text)` on already-stripped text: an optional sign
followed by one or more decimal digits.  (Digit-group underscores accepted
by CPython are not modelled.) -/
def pyIntParse (s : String) : Option Int :=
  match s.data with
  | '+' :: rest => (digitsVal rest).map Int.ofNat
  | '-' :: rest => (digitsVal rest).map fun n => -(n : Int)
  | cs => (digitsVal cs).map Int.ofNat

/-- All decimal digits, at least one. -/
def digitsOnly (cs : List Char) : Bool :=
  !cs.isEmpty && cs.all Char.isDigit

/-- Exponent part after `e`/`E`: optional sign then digits. -/
def expTailOk (cs : List Char) : Bool :=
  match cs with
  | '+' :: rest => digitsOnly rest
  | '-' :: rest => digitsOnly rest
  | _ => digitsOnly cs

/-- Mantissa: `digits [. [digits]]` or `. digits`. -/
def mantissaOk (cs : List Char) : Bool :=
  match cs.span Char.isDigit with
  | (intPart, rest) =>
    match rest with
    | [] => !intPart.isEmpty
    | '.' :: frac => (!intPart.isEmpty && frac.all Char.isDigit) || digitsOnly frac
    | _ => false

/-- Split the character list at the first `e`/`E`. -/
def splitExp (cs : List Char) : List Char × Option (List Char) :=
  match cs with
  | [] => ([], none)
  | c :: rest =>
    if c = 'e' ∨ c = 'E' then ([], some rest)
    else
      match splitExp rest with
      | (m, e) => (c :: m, e)

/-- Model of Python `float(text)` acceptance on already-stripped text:
optional sign, then a decimal mantissa with optional exponent, or the words
`inf`/`infinity`/`nan` case-insensitively.  (Digit-group underscores are not
modelled.) -/
def pyFloatOk (s : String) : Bool :=
  let cs := match s.data with
    | '+' :: rest => rest
    | '-' :: rest => rest
    | cs => cs
  let lower := cs.map Char.toLower
  if lower = "inf".data ∨ lower = "infinity".data ∨ lower = "nan".data then true
  else
    match splitExp cs with
    | (m, none) => mantissaOk m
    | (m, some e) => mantissaOk m && expTailOk e

/-- Model of `bsgui.core.qserver_controller.PlanParameter`: the typed parameter schema
of one plan argument.  `default`, `latest` use `Value.null` for Python `None`;
`type_name`, `description` are `Option String` for `str | None`. -/
structure PlanParameter where
  name : String
  default : Value := .null
  latest : Value := .null
  type_name : Option String := none
  required : Bool := false
  description : Option String := none

/-- The `isinstance` cascade of `inferred_type` over `default`. -/
def PlanParameter.infer_from_default : Value → String
  | .bool _ => "bool"
  | .int _ => "int"
  | .float _ => "float"
  | _ => "str"

/-- Model of `PlanParameter.inferred_type`: the explicit `type_name` when truthy
(non-`None`, non-empty), else derived from the Python type of `default`
(`bool` before `int`, matching the `isinstance` order), else `"str"`. -/
def PlanParameter.inferred_type (p : PlanParameter) : String :=
  match p.type_name with
  | some s => if s ≠ "" then s else PlanParameter.infer_from_default p.default
  | none => PlanParameter.infer_from_default p.default

/-- Model of `PlanParameter.coerce(text)`: parse display text into a typed value.
`Except.error` models a raised `ValueError` (`int(...)`/`float(...)` failures
and the explicit bool `raise`); the `text is None` guard of the source is
dropped because the embedding types `text` as `str`. -/
def PlanParameter.coerce (p : PlanParameter) (text : String) : Except String Value :=
  let type_name := pyToLower p.inferred_type
  let stripped := pyStrip text
  if stripped = "" then .ok .null
  else if stripped = "None" then .ok .null
  else if type_name = "str" then .ok (.str text)
  else if type_name = "int" then
    match pyIntParse stripped with
    | some n => .ok (.int n)
    | none => .error ("invalid literal for int: " ++ text)
  else if type_name = "float" then
    if pyFloatOk stripped then .ok (.float stripped)
    else .error ("could not convert string to float: " ++ text)
  else if type_name = "bool" then
    let normalized := pyToLower stripped
    if normalized = "true" ∨ normalized = "1" ∨ normalized = "yes" ∨ normalized = "y" ∨ normalized = "on" then .ok (.bool true)
    else if normalized = "false" ∨ normalized = "0" ∨ normalized = "no" ∨ normalized = "n" ∨ normalized = "off" then .ok (.bool false)
    else .error ("Invalid bool value: " ++ text)
  else .ok (.str text)

/-- Model of `bsgui.core.qserver_controller.PlanDefinition`. -/
structure PlanDefinition where
  item_type : String
  name : String
  parameters : List PlanParameter
  description : Option String := none

/-- A `Mapping[str, PlanDefinition]` (plan name → definition). -/
abbrev PlanDefs := List (String × PlanDefinition)

/-- First binding of `k` in a plan-definition mapping. -/
def plookup (m : PlanDefs) (k : String) : Option PlanDefinition :=
  match m with
  | [] => none
  | (k', v) :: rest => if k = k' then some v else plookup rest k

/-- Model of `queue_item_utils.clone_item`: `deepcopy` of a mapping (the identity on
values in this embedding), else a fresh `{"name": str(item)}`. -/
def clone_item : Value → PyDict
  | .vmap m => m
  | v => [("name", .str (pyStr v))]

/-- Model of `queue_item_utils.prepare_display_item`: normalize a raw record for
display — unwrap a nested `item` (hoisting `name` and, when absent at the
top, a copy of its `kwargs`); for completed records additionally hoist
`status`/`exit_status` from `result` or the nested `item` and default
`status` to `"completed"`.  The `dict(...)` copies of the source are
identities here. -/
def prepare_display_item (item : Value) (completed : Bool := false) : PyDict :=
  let normalized : PyDict :=
    match item with
    | .vmap m => m
    | v => [("name", .str (pyStr v))]
  let normalized :=
    match alookup normalized "item" with
    | some (.vmap nested) =>
      let normalized := aset normalized "item" (.vmap nested)
      let normalized := asetdefault normalized "name" (match alookup nested "name" with
        | some v => v
        | none => .null)
      if !acontains normalized "kwargs" then
        match alookup nested "kwargs" with
        | some (.vmap nkw) => aset normalized "kwargs" (.vmap nkw)
        | _ => normalized
      else normalized
    | _ => normalized
  let normalized :=
    if completed then
      let normalized :=
        match alookup normalized "result" with
        | some (.vmap result) =>
          let status_from_result := pyOr (match alookup result "status" with
              | some v => v | none => .null)
            (match alookup result "state" with
              | some v => v | none => .null)
          let exit_status_from_result := match alookup result "exit_status" with
            | some v => v | none => .null
          let normalized := if truthy status_from_result then aset normalized "status" status_from_result else normalized
          if truthy exit_status_from_result then aset normalized "exit_status" exit_status_from_result else normalized
        | _ => normalized
      let normalized :=
        match alookup normalized "item" with
        | some (.vmap nested) =>
          let status_from_item := match alookup nested "status" with
            | some v => v | none => .null
          let exit_status_from_item := match alookup nested "exit_status" with
            | some v => v | none => .null
          let normalized :=
            if truthy status_from_item && !acontains normalized "status" then
              aset normalized "status" status_from_item
            else normalized
          if truthy exit_status_from_item && !acontains normalized "exit_status" then
            aset normalized "exit_status" exit_status_from_item
          else normalized
        | _ => normalized
      let normalized := asetdefault normalized "status" (.str "completed")
      asetdefault normalized "state" (match alookup normalized "status" with
        | some v => v | none => .null)
    else normalized
  asetdefault normalized "name" (.str "Unknown")

/-- The sequence branch of the inner `resolve` of `extract_item_field`: the
first element that is a mapping containing `part`, yielding its value
there. -/
def resolve_list_entry : List Value → String → Option Value
  | [], _ => none
  | .vmap m :: rest, part =>
    match alookup m part with
    | some v => some v
    | none => resolve_list_entry rest part
  | _ :: rest, part => resolve_list_entry rest part

/-- The inner `resolve` of `extract_item_field`: walk the dotted-key parts
into nested mappings; on a list, use the first element that is a mapping
containing the next part.  `none` is the not-found sentinel. -/
def resolve_path : List String → Value → Option Value
  | [], current => some current
  | part :: rest, current =>
    match current with
    | .vmap m =>
      match alookup m part with
      | some next => resolve_path rest next
      | none => none
    | .vlist xs =>
      match resolve_list_entry xs part with
      | some next => resolve_path rest next
      | none => none
    | _ => none

/-- The candidate loop of `extract_item_field`: the first candidate container
that is a mapping and resolves the key parts (a resolved Python `None`
counts as found and is returned). -/
def extract_candidates (key_parts : List String) : List (Option Value) → Value
  | [] => .null
  | some (.vmap m) :: rest =>
    (match resolve_path key_parts (.vmap m) with
     | some v => v
     | none => extract_candidates key_parts rest)
  | _ :: rest => extract_candidates key_parts rest

/-- Model of `queue_item_utils.extract_item_field`: resolve a (possibly dotted) key
against the record itself, then `record["kwargs"]`, `record["result"]`,
`record["metadata"]`, `record["item"]`, returning the first success and
`None` when every container misses. -/
def extract_item_field (item : Value) (key : String) : Value :=
  match item with
  | .vmap m =>
    let key_parts := if key.data.contains '.' then pySplitDot key else [key]
    extract_candidates key_parts
      [some (.vmap m), alookup m "kwargs", alookup m "result", alookup m "metadata", alookup m "item"]
  | _ => .null

/-- Result of `lookup_roi_value`: `notFound` is a Python `None` return,
`val v` a bare value (`include_key=False`), `pair v key` a
`(value, matched_key)` tuple (`include_key=True`; `v` may be `null` on the
`available_params` fallback). -/
inductive RoiResult where
  | notFound
  | val (v : Value)
  | pair (v : Value) (key : String)

/-- First loop of `_check_mapping`: the first candidate literally present in
the mapping with a non-`None` value (a present key holding `None` is
skipped). -/
def first_present_non_null (mapping : PyDict) : List String → Option (Value × String)
  | [] => none
  | c :: cs =>
    match alookup mapping c with
    | some .null => first_present_non_null mapping cs
    | some v => some (v, c)
    | none => first_present_non_null mapping cs

/-- First candidate contained in the available-parameter set. -/
def first_in_avail : List String → List String → Option String
  | [], _ => none
  | c :: cs, avail => if avail.contains c then some c else first_in_avail cs avail

/-- The `available_params` fallback shared by `_check_mapping` and the tail
of `lookup_roi_value`: `(None, candidate)` with `include_key`, else a bare
Python `None`. -/
def avail_fallback (candidates : List String) (include_key : Bool) : Option (List String) → RoiResult
  | some avail =>
    (match first_in_avail candidates avail with
     | some c => if include_key then .pair .null c else .notFound
     | none => .notFound)
  | none => .notFound

/-- Model of `_check_mapping` of `lookup_roi_value`: first present non-`None`
candidate, else the `available_params` fallback. -/
def check_mapping (candidates : List String) (mapping : PyDict) (include_key : Bool)
    (available_params : Option (List String)) : RoiResult :=
  match first_present_non_null mapping candidates with
  | some (v, c) => if include_key then .pair v c else .val v
  | none => avail_fallback candidates include_key available_params

/-- Alias-map lookup `roi_key_map.get(column_id, [])`. -/
def rlookup (m : List (String × List String)) (k : String) : Option (List String) :=
  match m with
  | [] => none
  | (k', v) :: rest => if k = k' then some v else rlookup rest k

/-- The candidate loop over `extract_item_field` in `lookup_roi_value`. -/
def first_extract (item : Value) (include_key : Bool) : List String → RoiResult
  | [] => .notFound
  | c :: cs =>
    match extract_item_field item c with
    | .null => first_extract item include_key cs
    | v => if include_key then .pair v c else .val v

/-- The `item["kwargs"]` scan of `lookup_roi_value` (a non-mapping or
missing `kwargs` is a Python `None` result). -/
def check_kwargs_stage (candidates : List String) (item : PyDict) (include_key : Bool)
    (available_params : Option (List String)) : RoiResult :=
  match alookup item "kwargs" with
  | some (.vmap kwargs) => check_mapping candidates kwargs include_key available_params
  | _ => .notFound

/-- The `item["item"]["kwargs"]` scan of `lookup_roi_value`. -/
def check_nested_stage (candidates : List String) (item : PyDict) (include_key : Bool)
    (available_params : Option (List String)) : RoiResult :=
  match alookup item "item" with
  | some (.vmap nested_item) =>
    (match alookup nested_item "kwargs" with
     | some (.vmap nested_kwargs) => check_mapping candidates nested_kwargs include_key available_params
     | _ => .notFound)
  | _ => .notFound

/-- Model of `queue_item_utils.lookup_roi_value`: try the alias candidates against
`item["kwargs"]`, then `item["item"]["kwargs"]`, then via
`extract_item_field`, with the `available_params` fallback after the kwargs
scan and at the end. -/
def lookup_roi_value (column_id : String) (item : PyDict)
    (roi_key_map : List (String × List String)) (include_key : Bool)
    (available_params : Option (List String)) : RoiResult :=
  let candidates := match rlookup roi_key_map column_id with
    | some cs => cs
    | none => []
  if candidates.isEmpty then .notFound
  else
    match check_kwargs_stage candidates item include_key available_params with
    | .notFound =>
      match check_nested_stage candidates item include_key available_params with
      | .notFound =>
        match first_extract (.vmap item) include_key candidates with
        | .notFound => avail_fallback candidates include_key available_params
        | r => r
      | r => r
    | r => r

/-- Model of `queue_item_utils.set_if_exists`: overwrite `key` only when present;
`some` is a `True` return carrying the updated mapping. -/
def set_if_exists (mapping : PyDict) (key : String) (value : Value) : Option PyDict :=
  if acontains mapping key then some (aset mapping key value) else none

/-- Model of `queue_item_utils.ensure_kwargs_container`: the record's `kwargs`
mapping, created (replacing any non-mapping value) when needed.  Returns the
container together with the updated record, standing for the source's
returned alias into the mutated record. -/
def ensure_kwargs_container (item : PyDict) : PyDict × PyDict :=
  match alookup item "kwargs" with
  | some (.vmap kwargs) => (kwargs, item)
  | _ => ([], aset item "kwargs" (.vmap []))

/-- Model of `queue_item_utils.coerce_for_key`: coerce through the first parameter of
the plan named `key`, else pass the text through unchanged. -/
def coerce_for_key (plan_definitions : PlanDefs) (plan_name key text_value : String) :
    Except String Value :=
  match plookup plan_definitions plan_name with
  | some definition =>
    (match definition.parameters.find? (fun p => p.name = key) with
     | some parameter => parameter.coerce text_value
     | none => .ok (.str text_value))
  | none => .ok (.str text_value)

/-- A value found by `alookup` is a structural component of the mapping. -/
theorem sizeOf_alookup {m : PyDict} {k : String} {v : Value}
    (h : alookup m k = some v) : sizeOf v < sizeOf m := by
  induction m with
  | nil => simp [alookup] at h
  | cons hd tl ih =>
    obtain ⟨k', v'⟩ := hd
    rw [alookup] at h
    by_cases hk : k = k'
    · simp [hk] at h
      subst h
      simp
      omega
    · simp [hk] at h
      have := ih h
      simp
      omega

/-- Model of `item.get(k)` when it is a (mutable) mapping — the guard of the
nested-container loop of `apply_item_edit`. -/
def nested_mapping_at (item : PyDict) (k : String) : Option PyDict :=
  match alookup item k with
  | some (.vmap m) => some m
  | _ => none

/-- A nested mapping is a structural component of the record. -/
theorem sizeOf_nested_mapping_at {item : PyDict} {k : String} {m : PyDict}
    (h : nested_mapping_at item k = some m) : sizeOf m < sizeOf item := by
  unfold nested_mapping_at at h
  cases hv : alookup item k with
  | none => rw [hv] at h; simp at h
  | some w =>
    rw [hv] at h
    cases w with
    | vmap m' =>
      have h1 := sizeOf_alookup hv
      simp at h h1
      subst h
      omega
    | null => simp at h
    | bool b => simp at h
    | int n => simp at h
    | float l => simp at h
    | str s => simp at h
    | vlist xs => simp at h

/-- The `kwargs` branch of `apply_item_edit`: overwrite `column_id` inside a
kwargs mapping that already holds it. -/
def kwargs_direct_hit (item : PyDict) (column_id : String) (value : Value) : Option PyDict :=
  match alookup item "kwargs" with
  | some (.vmap kwargs) =>
    if acontains kwargs column_id then
      some (aset item "kwargs" (.vmap (aset kwargs column_id value)))
    else none
  | _ => none

mutual

/-- Model of `queue_item_utils.apply_item_edit`: coerce the text, then try in order a
present top-level key, a present `kwargs` key, the alias chain for an
alias-map column (recursing with each alias, falling back to inserting the
first alias into the kwargs container, and returning `False` for an empty
alias list), recursion into `item`/`metadata`/`result`, and finally
insertion into the (created) kwargs container.  `.ok (some item)` is a
`True` return with the mutated record, `.ok none` a `False` return (the
record is never mutated on `False`), `.error` a raised `ValueError`.
`fuel` bounds the alias-chain recursion depth, which diverges in the source
on a cyclic alias map (Python's `RecursionError`, modelled as an error);
recursion into nested containers is structural and consumes no fuel. -/
def apply_item_edit (fuel : Nat) (item : PyDict) (column_id : String) (text_value : String)
    (plan_name : String) (plan_definitions : PlanDefs)
    (roi_key_map : List (String × List String)) : Except String (Option PyDict) :=
  match coerce_for_key plan_definitions plan_name column_id text_value with
  | .error e => .error e
  | .ok value =>
    match set_if_exists item column_id value with
    | some item' => .ok (some item')
    | none =>
      match kwargs_direct_hit item column_id value with
      | some item' => .ok (some item')
      | none =>
        match rlookup roi_key_map column_id with
        | some aliases =>
          (match fuel with
           | 0 => .error "RecursionError"
           | fuel' + 1 =>
             apply_roi_aliases fuel' item column_id aliases aliases text_value plan_name
               plan_definitions roi_key_map)
        | none =>
          apply_item_edit_nested fuel item ["item", "metadata", "result"] column_id value
            text_value plan_name plan_definitions roi_key_map
termination_by (fuel, sizeOf item, 10)

/-- The alias loop of the `column_id in roi_key_map` branch: recurse with
each alias different from the column id; when none succeeds, coerce for the
first alias and insert it into the kwargs container (`False` when the alias
list is empty). -/
def apply_roi_aliases (fuel : Nat) (item : PyDict) (column_id : String)
    (aliases remaining : List String) (text_value plan_name : String)
    (plan_definitions : PlanDefs) (roi_key_map : List (String × List String)) :
    Except String (Option PyDict) :=
  match remaining with
  | [] =>
    (match aliases with
     | [] => .ok none
     | alias0 :: _ =>
       match coerce_for_key plan_definitions plan_name alias0 text_value with
       | .error e => .error e
       | .ok v =>
         let ci := ensure_kwargs_container item
         .ok (some (aset ci.2 "kwargs" (.vmap (aset ci.1 alias0 v)))))
  | alias1 :: rest =>
    if alias1 = column_id then
      apply_roi_aliases fuel item column_id aliases rest text_value plan_name
        plan_definitions roi_key_map
    else
      match apply_item_edit fuel item alias1 text_value plan_name plan_definitions roi_key_map with
      | .error e => .error e
      | .ok (some item') => .ok (some item')
      | .ok none =>
        apply_roi_aliases fuel item column_id aliases rest text_value plan_name
          plan_definitions roi_key_map
termination_by (fuel, sizeOf item, remaining.length + 20)

/-- The nested-container loop of `apply_item_edit` (`item`, `metadata`,
`result`) followed by the final kwargs-container fallback.  A successful
recursive edit of a nested mapping is written back into the record,
standing for the source's in-place mutation through the alias. -/
def apply_item_edit_nested (fuel : Nat) (item : PyDict) (keys : List String)
    (column_id : String) (value : Value) (text_value plan_name : String)
    (plan_definitions : PlanDefs) (roi_key_map : List (String × List String)) :
    Except String (Option PyDict) :=
  match keys with
  | [] =>
    let ci := ensure_kwargs_container item
    .ok (some (aset ci.2 "kwargs" (.vmap (aset ci.1 column_id value))))
  | k :: rest =>
    match h : nested_mapping_at item k with
    | some nested =>
      (match apply_item_edit fuel nested column_id text_value plan_name plan_definitions roi_key_map with
       | .error e => .error e
       | .ok (some nested') => .ok (some (aset item k (.vmap nested')))
       | .ok none =>
         apply_item_edit_nested fuel item rest column_id value text_value plan_name
           plan_definitions roi_key_map)
    | none =>
      apply_item_edit_nested fuel item rest column_id value text_value plan_name
        plan_definitions roi_key_map
termination_by (fuel, sizeOf item, keys.length + 1)
decreasing_by
  · have h1 := sizeOf_nested_mapping_at h
    simp_wf
    apply Prod.Lex.right
    apply Prod.Lex.left
    omega
  · simp_wf
    apply Prod.Lex.right
    apply Prod.Lex.right
    omega
  · simp_wf
    apply Prod.Lex.right
    apply Prod.Lex.right
    omega

end

/-- Model of `param_lookup.get(key)` over the comprehension
`{p.name: p for p in plan.parameters}`: the last parameter with that name
(a later duplicate overwrites an earlier one in a dict comprehension). -/
def param_lookup_get (plan : Option PlanDefinition) (key : String) : Option PlanParameter :=
  match plan with
  | some d => d.parameters.reverse.find? (fun p => p.name = key)
  | none => none

/-- The row-value loop of `build_update_payload`: split the row into typed
`updates` (insertion order kept) and blank-valued `removals`, skipping
excluded keys; a failing coercion raises `"{key}: {exc}"`. -/
def build_update_entries (plan : Option PlanDefinition) (exclude : List String) :
    List (String × String) → Except String (List (String × Value) × List String)
  | [] => .ok ([], [])
  | (key, value) :: rest =>
    if exclude.contains key then build_update_entries plan exclude rest
    else if pyStrip value = "" then
      match build_update_entries plan exclude rest with
      | .error e => .error e
      | .ok pr => .ok (pr.1, key :: pr.2)
    else
      match param_lookup_get plan key with
      | some parameter =>
        (match parameter.coerce value with
         | .error e => .error (key ++ ": " ++ e)
         | .ok coerced =>
           match build_update_entries plan exclude rest with
           | .error e => .error e
           | .ok pr => .ok ((key, coerced) :: pr.1, pr.2))
      | none =>
        match build_update_entries plan exclude rest with
        | .error e => .error e
        | .ok pr => .ok ((key, .str value) :: pr.1, pr.2)

/-- Model of `queue_item_utils.build_update_payload`: deep-copy the raw record, then
pop every blank-valued row key from its kwargs container and write every
other non-excluded row value (coerced through the plan's parameter when one
is declared).  `plan_definitions.get(plan_name or "")` equals a plain lookup
because `plan_name or ""` is `plan_name` for a non-empty string and `""`
otherwise. -/
def build_update_payload (raw_item : Value) (row_values : List (String × String))
    (exclude_keys : List String) (plan_definitions : PlanDefs) (plan_name : String) :
    Except String PyDict :=
  let plan := plookup plan_definitions plan_name
  let payload := clone_item raw_item
  let ci := ensure_kwargs_container payload
  match build_update_entries plan exclude_keys row_values with
  | .error e => .error e
  | .ok ur =>
    let kwargs1 := ur.2.foldl aremove ci.1
    let kwargs2 := ur.1.foldl (fun m kv => aset m kv.1 kv.2) kwargs1
    .ok (aset ci.2 "kwargs" (.vmap kwargs2))

mutual

/-- Python `==` on values, as used for uid comparison in
`_rebuild_queue_table`.  Structural; numeric cross-type equality
(`1 == 1.0`) is not modelled — uid fields are strings. -/
def value_eq : Value → Value → Bool
  | .null, .null => true
  | .bool a, .bool b => a = b
  | .int a, .int b => a = b
  | .float a, .float b => a = b
  | .str a, .str b => a = b
  | .vlist a, .vlist b => value_eq_list a b
  | .vmap a, .vmap b => value_eq_entries a b
  | _, _ => false

def value_eq_list : List Value → List Value → Bool
  | [], [] => true
  | a :: as', b :: bs => value_eq a b && value_eq_list as' bs
  | _, _ => false

def value_eq_entries : List (String × Value) → List (String × Value) → Bool
  | [], [] => true
  | (k, a) :: as', (l, b) :: bs => k = l && value_eq a b && value_eq_entries as' bs
  | _, _ => false

end

/-- Model of `QueueMonitorWidget._get_uid`: `extract_item_field(item, "item_uid") or
extract_item_field(item, "uid") or ""` — the first truthy resolved uid, else
the empty string. -/
def get_uid (item : Value) : Value :=
  pyOr (extract_item_field item "item_uid") (pyOr (extract_item_field item "uid") (.str ""))

/-- Model of `queue_monitor.QueueColumnSpec`. -/
structure QueueColumnSpec where
  column_id : String
  label : String
  stretch : Bool := false
deriving DecidableEq

/-- Model of `key.replace("_", " ")`. -/
def pyReplaceUnderscore (s : String) : String :=
  ⟨s.data.map (fun c => if c = '_' then ' ' else c)⟩

/-- Character walk of Python `str.title()`: an alphabetic character is
upper-cased after a non-alphabetic one and lower-cased otherwise
(`isAlpha` stands for Python's cased-character classes). -/
def pyTitleChars : List Char → Bool → List Char
  | [], _ => []
  | c :: cs, prevAlpha =>
    (if c.isAlpha then (if prevAlpha then c.toLower else c.toUpper) else c) ::
      pyTitleChars cs c.isAlpha

/-- Model of `s.title()`. -/
def pyTitle (s : String) : String :=
  ⟨pyTitleChars s.data false⟩

/-- The `add` closure of `_ensure_columns`: append a spec unless the id is
empty (falsy) or already seen.  The state is the `required` list together
with the `seen` set. -/
def add_column (st : List QueueColumnSpec × List String) (column_id label : String) :
    List QueueColumnSpec × List String :=
  if column_id = "" ∨ st.2.contains column_id then st
  else (st.1 ++ [⟨column_id, label, true⟩], column_id :: st.2)

/-- The kwargs containers of one record scanned by `_ensure_columns`:
`item["kwargs"]` and `item["item"]["kwargs"]` when they are mappings. -/
def kwargs_sources (item : Value) : List PyDict :=
  match item with
  | .vmap m =>
    (match alookup m "kwargs" with
     | some (.vmap kw) => [kw]
     | _ => []) ++
    (match alookup m "item" with
     | some (.vmap nested) =>
       (match alookup nested "kwargs" with
        | some (.vmap nkw) => [nkw]
        | _ => [])
     | _ => [])
  | _ => []

/-- The dynamic-kwargs scan of `_ensure_columns`: add one column per key not
claimed by an alias value, labelled by its title-cased form. -/
def add_kwargs_keys (roi_value_aliases : List String)
    (st : List QueueColumnSpec × List String) (mapping : PyDict) :
    List QueueColumnSpec × List String :=
  mapping.foldl
    (fun st kv =>
      if roi_value_aliases.contains kv.1 then st
      else add_column st kv.1 (pyTitle (pyReplaceUnderscore kv.1)))
    st

/-- The full `required` list computed by `_ensure_columns`: the fixed
`status`/`name`/`scan_ids` leaders, one column per alias-map key in declared
order (`"title"` labelled `"Comments"`), then the first-seen kwargs keys of
every record not claimed by an alias value. -/
def required_columns (roi_key_map : List (String × List String))
    (roi_value_aliases : List String) (queue : List Value) : List QueueColumnSpec :=
  let st : List QueueColumnSpec × List String := ([], [])
  let st := add_column st "status" "Status"
  let st := add_column st "name" "Plan"
  let st := add_column st "scan_ids" "Scan ID"
  let st := roi_key_map.foldl
    (fun st kv =>
      add_column st kv.1 (if kv.1 = "title" then "Comments" else pyTitle (pyReplaceUnderscore kv.1)))
    st
  let st := queue.foldl
    (fun st item => (kwargs_sources item).foldl (add_kwargs_keys roi_value_aliases) st)
    st
  st.1

/-- The replacement test of `_ensure_columns`: lengths differ or some
paired column ids differ. -/
def columns_differ (required current : List QueueColumnSpec) : Bool :=
  required.length ≠ current.length ||
    (required.zip current).any (fun ab => ab.1.column_id ≠ ab.2.column_id)

/-- Model of `QueueMonitorWidget._ensure_columns`: recompute the required columns and
replace the current list only when the ordered id sequence changed. -/
def ensure_columns (roi_key_map : List (String × List String))
    (roi_value_aliases : List String) (queue : List Value)
    (current : List QueueColumnSpec) : List QueueColumnSpec :=
  let required := required_columns roi_key_map roi_value_aliases queue
  if columns_differ required current then required else current

/-- The alias-value set built in `QueueMonitorWidget.__init__`:
`{alias for values in roi_key_map.values() for alias in values if alias != "title"}`. -/
def roi_value_aliases_of (roi_key_map : List (String × List String)) : List String :=
  ((roi_key_map.map Prod.snd).flatten).filter (fun a => a ≠ "title")

/-- Model of `queue_monitor.QUEUE_ITEM_STATE_PENDING`. -/
def QUEUE_ITEM_STATE_PENDING : String := "pending"

/-- Model of `queue_monitor.QUEUE_ITEM_STATE_COMPLETED`. -/
def QUEUE_ITEM_STATE_COMPLETED : String := "completed"

/-- Model of `queue_monitor.QUEUE_ITEM_STATE_RUNNING`. -/
def QUEUE_ITEM_STATE_RUNNING : String := "running"

/-- The `enumerate` loop over the visible rows of `_rebuild_queue_table`. -/
def enumerate_map (f : Nat → PyDict → String) (start : Nat) : List PyDict → List String
  | [] => []
  | x :: xs => f start x :: enumerate_map f (start + 1) xs

/-- The row-state classification of `_rebuild_queue_table`: the visible rows
are `[running_item] ++ pending ++ completed` when the running record has a
resolvable uid, else `pending ++ completed`; each row is `running` when its
uid equals the running uid, else `pending` when its position (minus the
running offset) falls inside the pending range, else `completed`.
`pending_raw_count` is `len(_pending_raw_items)`, which the widget keeps in
lockstep with `_pending_items` (both are rebuilt together in `update_queue`
and popped/inserted together in `_handle_local_pending_reorder`). -/
def queue_row_states (running_item : PyDict) (pending_items completed_items : List PyDict)
    (pending_raw_count : Nat) : List String :=
  let running_uid := get_uid (.vmap running_item)
  let all_items : List PyDict :=
    if !(value_eq running_uid (.str "")) then
      running_item :: (pending_items ++ completed_items)
    else pending_items ++ completed_items
  enumerate_map (fun row item =>
    let uid := get_uid (.vmap item)
    let pending_index : Int := (row : Int) - (if truthy running_uid then 1 else 0)
    if truthy running_uid && value_eq uid running_uid then QUEUE_ITEM_STATE_RUNNING
    else if 0 ≤ pending_index ∧ pending_index < (pending_raw_count : Int) then
      QUEUE_ITEM_STATE_PENDING
    else QUEUE_ITEM_STATE_COMPLETED) 0 all_items

/-- The `resolve_uid` closure of `_handle_local_pending_reorder`:
`str((extract_item_field(item, "item_uid") or extract_item_field(item, "uid")) or "")`. -/
def resolve_uid_local (item : PyDict) : String :=
  pyStr (pyOr
    (pyOr (extract_item_field (.vmap item) "item_uid") (extract_item_field (.vmap item) "uid"))
    (.str ""))

/-- Model of `list.insert(i, a)`: insert before position `i`, appending when `i` is
past the end. -/
def list_insert_at (l : List α) (i : Nat) (a : α) : List α :=
  l.take i ++ a :: l.drop i

/-- Model of `QueueMonitorWidget._handle_local_pending_reorder`: locate the dragged
uid among the pending display items, clamp the target into
`[0, len(pending)-1]`, then pop both the display and the raw record at the
source index and reinsert them, decrementing the target by one when the
source index lies before it.  Returns the (display, raw) pending lists,
unchanged on every early exit. -/
def handle_local_pending_reorder (pending_items pending_raw_items : List PyDict)
    (uid : String) (target_index : Int) : List PyDict × List PyDict :=
  if pending_items.isEmpty then (pending_items, pending_raw_items)
  else
    match pending_items.findIdx? (fun item => resolve_uid_local item = uid) with
    | none => (pending_items, pending_raw_items)
    | some source_index =>
      if target_index < 0 then (pending_items, pending_raw_items)
      else
        let target := max 0 (min target_index ((pending_items.length : Int) - 1))
        if (source_index : Int) = target then (pending_items, pending_raw_items)
        else
          match pending_items.get? source_index, pending_raw_items.get? source_index with
          | some item, some raw_item =>
            let pending' := pending_items.take source_index ++ pending_items.drop (source_index + 1)
            let raw' := pending_raw_items.take source_index ++ pending_raw_items.drop (source_index + 1)
            let target' := if (source_index : Int) < target then target - 1 else target
            (list_insert_at pending' target'.toNat item, list_insert_at raw' target'.toNat raw_item)
          | _, _ => (pending_items, pending_raw_items)

/-- Model of `QueueMonitorWidget._extract_plan_name`: the truthy top-level `name`,
else the resolved `name` field, else `""`. -/
def extract_plan_name (item : Value) : String :=
  let direct := match item with
    | .vmap m =>
      (match alookup m "name" with
       | some v => v
       | none => .null)
    | _ => .null
  if truthy direct then pyStr direct
  else
    let extracted := match item with
      | .vmap _ => extract_item_field item "name"
      | _ => .null
    pyStr (pyOr extracted (.str ""))

/-- The projection state mutated by `_handle_item_changed`:
`_pending_raw_items` and `_pending_items` (always of equal length in the
widget). -/
structure PendingState where
  pending_raw_items : List PyDict
  pending_items : List PyDict

/-- Outcome of the remote leg of an edit: the queue API object missing, no
update function on it, the update call raising, or a returned response
value. -/
inductive RemoteOutcome where
  | noApi
  | noUpdateFn
  | throws
  | resp (v : Value)

/-- The state slice of `QueueMonitorWidget._revert_pending_edit`: write the
deep-copied previous raw record and the re-prepared previous display record
back at `row` when the index is in range (the status-message and
cell-restore effects are UI-only and omitted). -/
def revert_pending_edit (st : PendingState) (row : Int)
    (previous_raw previous_display : Option PyDict) : PendingState :=
  let st := match previous_raw with
    | some pr =>
      if 0 ≤ row ∧ row < (st.pending_raw_items.length : Int) then
        { st with pending_raw_items := st.pending_raw_items.set row.toNat (clone_item (.vmap pr)) }
      else st
    | none => st
  match previous_display with
  | some pd =>
    if 0 ≤ row ∧ row < (st.pending_items.length : Int) then
      { st with pending_items := st.pending_items.set row.toNat (prepare_display_item (.vmap pd)) }
    else st
  | none => st

/-- The state transition of `QueueMonitorWidget._handle_item_changed` on the
pending collections.  Inputs read from the table widget are parameters: the
cell's row/column, its column-id and kwargs-key data roles, its new text,
the displayed `old_text` (computed by `_format_queue_value` from the
pre-edit display item; only its equality with the new text matters here) and
the full `row_values` of the edited row.  The `suppress`/no-controller
guards, status messages and cell restores are UI-only and omitted.  A
`ValueError` escaping `apply_item_edit` aborts the slot before the local
caches are touched (the coercion happens before any mutation; the empty
kwargs container the alias fallback may have created on the raw record
before such a raise is not modelled).  The source indexes the pending lists
only after the bounds guard; out-of-range defaults below are unreachable. -/
def handle_item_changed (st : PendingState) (running_item : PyDict)
    (columns : List QueueColumnSpec) (cell_row : Nat) (column_index : Nat)
    (cell_column_id cell_kwarg_key : Option String) (new_text old_text : String)
    (row_values : List (String × String)) (plan_definitions : PlanDefs)
    (roi_key_map : List (String × List String)) (fuel : Nat)
    (remote : RemoteOutcome) : PendingState :=
  let running_uid := get_uid (.vmap running_item)
  let offset : Int := if !(value_eq running_uid (.str "")) then 1 else 0
  let row : Int := (cell_row : Int) - offset
  if row < 0 then st
  else
    let rowN := row.toNat
    if rowN ≥ st.pending_raw_items.length then st
    else if column_index ≥ columns.length then st
    else
      let column_id := match cell_column_id with
        | some s => s
        | none => (((columns.get? column_index).map QueueColumnSpec.column_id).getD "")
      let plan_name := extract_plan_name (.vmap (st.pending_raw_items.getD rowN []))
      let target_key := match cell_kwarg_key with
        | some s => if s ≠ "" then s else column_id
        | none => column_id
      let raw_item := st.pending_raw_items.getD rowN []
      let previous_raw := raw_item
      let previous_display := st.pending_items.getD rowN []
      if new_text = old_text then st
      else
        match apply_item_edit fuel raw_item target_key new_text plan_name plan_definitions roi_key_map with
        | .error _ => st
        | .ok none => revert_pending_edit st row (some previous_raw) (some previous_display)
        | .ok (some raw') =>
          let st2 : PendingState :=
            { pending_raw_items := st.pending_raw_items.set rowN raw'
              pending_items := st.pending_items.set rowN (prepare_display_item (.vmap raw')) }
          match remote with
          | .noApi => revert_pending_edit st2 row (some previous_raw) (some previous_display)
          | _ =>
            match build_update_payload (.vmap raw') row_values ["name", "status"]
                plan_definitions plan_name with
            | .error _ =>
              revert_pending_edit st2 (row + offset) (some previous_raw) (some previous_display)
            | .ok _ =>
              match remote with
              | .noApi => revert_pending_edit st2 row (some previous_raw) (some previous_display)
              | .noUpdateFn => revert_pending_edit st2 row (some previous_raw) (some previous_display)
              | .throws => revert_pending_edit st2 row (some previous_raw) (some previous_display)
              | .resp v =>
                let success := match v with
                  | .vmap m =>
                    truthy (match alookup m "success" with
                      | some sv => sv
                      | none => .bool false)
                  | _ => true
                if success then st2
                else
                  { pending_raw_items := st2.pending_raw_items.set rowN previous_raw
                    pending_items := st2.pending_items.set rowN previous_display }

/-! ## Shared lemmas -/

theorem alookup_aset_self (m : PyDict) (k : String) (v : Value) :
    alookup (aset m k v) k = some v := by
  induction m with
  | nil => simp [aset, alookup]
  | cons hd tl ih =>
    obtain ⟨k', v'⟩ := hd
    by_cases hk : k = k'
    · simp [aset, alookup, hk]
    · simp [aset, alookup, hk, ih]

theorem alookup_aset_ne (m : PyDict) (k k' : String) (v : Value) (h : k' ≠ k) :
    alookup (aset m k v) k' = alookup m k' := by
  induction m with
  | nil => simp [aset, alookup, h]
  | cons hd tl ih =>
    obtain ⟨k0, v0⟩ := hd
    by_cases hk : k = k0
    · subst hk
      simp [aset, alookup, h]
    · by_cases hk' : k' = k0
      · simp [aset, alookup, hk, hk']
      · simp [aset, alookup, hk, hk', ih]

theorem pyStrip_eq_empty_of_allWhitespace (s : String) (h : allWhitespace s = true) :
    pyStrip s = "" := by
  unfold allWhitespace at h
  unfold pyStrip
  have hdrop : s.data.dropWhile Char.isWhitespace = [] := by
    exact List.dropWhile_eq_nil_iff.mpr (by
      intro x hx
      exact List.all_eq_true.mp h x hx)
  simp [hdrop]

/-! ## C5: idempotence of `_ensure_columns` -/

theorem columns_differ_self (l : List QueueColumnSpec) : columns_differ l l = false := by
  unfold columns_differ
  simp
  intro a b hab
  induction l with
  | nil => simp at hab
  | cons hd tl ih =>
    simp [List.zip] at hab
    rcases hab with ⟨h1, h2⟩ | h
    · subst h1; subst h2; rfl
    · exact ih (by simpa [List.zip] using h)

/-- C5: `ensureColumns` is idempotent — recomputing the columns over the
same records and alias map leaves the column list produced by a first call
untouched (when the effective ordered id list is unchanged the existing
`ColumnSpec` list is kept, not replaced). -/
theorem ensure_columns_idempotent (roi_key_map : List (String × List String))
    (roi_value_aliases : List String) (queue : List Value)
    (current : List QueueColumnSpec) :
    ensure_columns roi_key_map roi_value_aliases queue
      (ensure_columns roi_key_map roi_value_aliases queue current)
      = ensure_columns roi_key_map roi_value_aliases queue current := by
  unfold ensure_columns
  by_cases h : columns_differ (required_columns roi_key_map roi_value_aliases queue) current = true
  · simp [h, columns_differ_self]
  · simp only [Bool.not_eq_true] at h
    simp [h]

/-! ## C8: blank / `None` text always coerces to `None` -/

/-- C8: for every parameter, whatever its inferred type, `coerce` returns
`None` without raising when the text is empty, whitespace-only, or the
literal string `"None"` — blanking a typed cell never produces a coercion
error. -/
theorem coerce_blank_or_none_returns_null (p : PlanParameter) (text : String)
    (h : text = "" ∨ allWhitespace text = true ∨ text = "None") :
    p.coerce text = .ok .null := by
  unfold PlanParameter.coerce
  rcases h with h | h | h
  · subst h
    simp [pyStrip]
  · simp [pyStrip_eq_empty_of_allWhitespace text h]
  · subst h
    have hstrip : pyStrip "None" = "None" := rfl
    simp [hstrip]

theorem coerce_blank_or_none_returns_null_witness :
    (PlanParameter.mk "n" .null .null (some "int") false none).coerce " \t " = .ok .null ∧
    (PlanParameter.mk "f" (.float "1.5") .null none false none).coerce "None" = .ok .null ∧
    (PlanParameter.mk "b" (.bool true) .null none false none).coerce "" = .ok .null :=
  ⟨coerce_blank_or_none_returns_null _ _ (Or.inr (Or.inl (by decide))),
   coerce_blank_or_none_returns_null _ _ (Or.inr (Or.inr rfl)),
   coerce_blank_or_none_returns_null _ _ (Or.inl rfl)⟩

/-! ## C6: when `coerce` raises -/

/-- Whether `text` can be parsed as the (lower-cased) type `type_name`, in
the sense of the spec's claim: `int`/`float` by Python's numeric literal
parsing (which ignores surrounding whitespace), `bool` by the accepted
true/false token sets, and any other type (including `str`) always.  This
definition follows the claim's words, to be compared with
`PlanParameter.coerce`. -/
def text_parses_as (type_name text : String) : Bool :=
  if type_name = "int" then (pyIntParse (pyStrip text)).isSome
  else if type_name = "float" then pyFloatOk (pyStrip text)
  else if type_name = "bool" then
    let normalized := pyToLower (pyStrip text)
    decide (normalized = "true" ∨ normalized = "1" ∨ normalized = "yes" ∨ normalized = "y" ∨
      normalized = "on" ∨ normalized = "false" ∨ normalized = "0" ∨ normalized = "no" ∨
      normalized = "n" ∨ normalized = "off")
  else true

/-- C6 counterexample: an `int`-typed parameter coerces the text `"None"`
without raising even though `"None"` cannot be parsed as an int, so
"raises exactly when the text cannot be parsed as the inferred type" is
false as stated. -/
theorem coerce_error_iff_unparseable_counterexample :
    ¬ ((∃ e, (PlanParameter.mk "n" .null .null (some "int") false none).coerce "None"
          = .error e)
        ↔ text_parses_as "int" "None" = false) := by
  intro h
  obtain ⟨e, he⟩ := h.mpr (by decide)
  have h2 : (PlanParameter.mk "n" Value.null Value.null (some "int") false none).coerce "None"
      = .ok .null := rfl
  rw [h2] at he
  exact Except.noConfusion he

/-- C6 amended: `coerce` raises exactly when the stripped text is non-empty,
differs from the literal `"None"`, and cannot be parsed as the inferred
type; under `str` (or any unrecognized type name) coercion never fails. -/
theorem coerce_error_characterization (p : PlanParameter) (text : String) :
    (∃ e, p.coerce text = .error e) ↔
      (pyStrip text ≠ "" ∧ pyStrip text ≠ "None" ∧
        text_parses_as (pyToLower p.inferred_type) text = false) := by
  unfold PlanParameter.coerce text_parses_as
  by_cases h1 : pyStrip text = ""
  · simp [h1]
  · by_cases h2 : pyStrip text = "None"
    · simp [h1, h2]
    · by_cases h3 : pyToLower p.inferred_type = "str"
      · simp [h1, h2, h3]
      · by_cases h4 : pyToLower p.inferred_type = "int"
        · have h4s : ¬ ("int" : String) = "str" := by decide
          simp only [h1, h2, h3, h4, if_false, if_true, ite_true, ite_false, ne_eq,
            not_false_eq_true, true_and]
          cases hp : pyIntParse (pyStrip text) <;> simp [hp]
        · by_cases h5 : pyToLower p.inferred_type = "float"
          · simp only [h1, h2, h3, h4, h5, if_false, if_true, ite_true, ite_false, ne_eq,
              not_false_eq_true, true_and]
            cases hf : pyFloatOk (pyStrip text) <;> simp [hf]
          · by_cases h6 : pyToLower p.inferred_type = "bool"
            · simp only [h1, h2, h3, h4, h5, h6, if_false, if_true, ite_true, ite_false, ne_eq,
                not_false_eq_true, true_and]
              by_cases hb1 : pyToLower (pyStrip text) = "true" ∨ pyToLower (pyStrip text) = "1" ∨
                  pyToLower (pyStrip text) = "yes" ∨ pyToLower (pyStrip text) = "y" ∨
                  pyToLower (pyStrip text) = "on"
              · simp [hb1]
                tauto
              · by_cases hb2 : pyToLower (pyStrip text) = "false" ∨
                    pyToLower (pyStrip text) = "0" ∨ pyToLower (pyStrip text) = "no" ∨
                    pyToLower (pyStrip text) = "n" ∨ pyToLower (pyStrip text) = "off"
                · simp [hb1, hb2]
                · simp [hb1, hb2]
            · simp [h1, h2, h3, h4, h5, h6]

/-! ## C3: the shapes `extract_item_field` resolves -/

/-- C3 counterexample: a simple key bound one level under `item.kwargs` is
not found by `extract_item_field` — the candidate containers are only the
record itself, `kwargs`, `result`, `metadata` and `item` directly, and the
resolver does not descend from `item` into `item["kwargs"]` for a dot-free
key. -/
theorem extract_item_field_item_kwargs_counterexample :
    extract_item_field (.vmap [("item", .vmap [("kwargs", .vmap [("width", .int 7)])])]) "width"
        = Value.null
      ∧ Value.null ≠ Value.int 7 := by
  constructor
  · rfl
  · simp

/-- C3 amended: a simple dot-free key `k` (not named `"kwargs"` or `"item"`)
bound to `v` is resolved when it sits at the record's top level, under
`record["kwargs"]`, or directly under `record["item"]`; but the shape
`{"item": {"kwargs": {k: v}}}` resolves to `None` — one level under
`item.kwargs` is not reachable. -/
theorem extract_item_field_shapes (k : String) (v : Value)
    (hdot : k.data.contains '.' = false) (hk1 : k ≠ "kwargs") (hk2 : k ≠ "item") :
    extract_item_field (.vmap [(k, v)]) k = v
      ∧ extract_item_field (.vmap [("kwargs", .vmap [(k, v)])]) k = v
      ∧ extract_item_field (.vmap [("item", .vmap [(k, v)])]) k = v
      ∧ extract_item_field (.vmap [("item", .vmap [("kwargs", .vmap [(k, v)])])]) k
          = Value.null := by
  have hdot' : ('.' : Char) ∉ k.data := by simpa using hdot
  refine ⟨?_, ?_, ?_, ?_⟩
  · simp [extract_item_field, hdot', extract_candidates, resolve_path, alookup]
  · simp [extract_item_field, hdot', extract_candidates, resolve_path, alookup, hk1]
  · simp [extract_item_field, hdot', extract_candidates, resolve_path, alookup, hk1, hk2]
  · simp [extract_item_field, hdot', extract_candidates, resolve_path, alookup, hk1, hk2]

theorem extract_item_field_shapes_witness :
    extract_item_field (.vmap [("width", .int 3)]) "width" = Value.int 3
      ∧ extract_item_field (.vmap [("kwargs", .vmap [("width", .int 3)])]) "width" = Value.int 3
      ∧ extract_item_field (.vmap [("item", .vmap [("width", .int 3)])]) "width" = Value.int 3
      ∧ extract_item_field (.vmap [("item", .vmap [("kwargs", .vmap [("width", .int 3)])])])
          "width" = Value.null :=
  extract_item_field_shapes "width" (.int 3) (by decide) (by decide) (by decide)

/-! ## C1: local reorder after a successful remote move -/

/-- C1 counterexample: dragging the record with uid `A` (index 0) of a
pending list `[A, B, C]` to target index 2 does not produce `[B, C, A]` —
the source pops the dragged record and then decrements the target index by
one because the record moved forward past its own removal point, so the
insertion lands at index 1. -/
theorem handle_local_pending_reorder_counterexample :
    (handle_local_pending_reorder
        [[("item_uid", .str "A")], [("item_uid", .str "B")], [("item_uid", .str "C")]]
        [[("item_uid", .str "A")], [("item_uid", .str "B")], [("item_uid", .str "C")]]
        "A" 2).1
      ≠ [[("item_uid", Value.str "B")], [("item_uid", Value.str "C")],
         [("item_uid", Value.str "A")]] := by
  have e : (handle_local_pending_reorder
      [[("item_uid", .str "A")], [("item_uid", .str "B")], [("item_uid", .str "C")]]
      [[("item_uid", .str "A")], [("item_uid", .str "B")], [("item_uid", .str "C")]]
      "A" 2).1
      = [[("item_uid", Value.str "B")], [("item_uid", Value.str "A")],
         [("item_uid", Value.str "C")]] := rfl
  rw [e]
  simp

/-- C1 amended: for the pending list `[A, B, C]`, a successful
`proposeMove` dragging `A` (index 0) to target index 2 applies the local
remove-then-reinsert with the index adjusted by −1 (the record moved
forward past its own removal point), leaving the local pending order
`[B, A, C]` in both the display and the raw list. -/
theorem handle_local_pending_reorder_drag_forward :
    handle_local_pending_reorder
        [[("item_uid", .str "A")], [("item_uid", .str "B")], [("item_uid", .str "C")]]
        [[("item_uid", .str "A")], [("item_uid", .str "B")], [("item_uid", .str "C")]]
        "A" 2
      = ([[("item_uid", Value.str "B")], [("item_uid", Value.str "A")],
          [("item_uid", Value.str "C")]],
         [[("item_uid", Value.str "B")], [("item_uid", Value.str "A")],
          [("item_uid", Value.str "C")]]) := rfl

/-! ## C2: null-valued kwargs keys in `lookup_roi_value` -/

/-- C2 counterexample: with alias candidates `["width", "roi_width"]` and
`kwargs = {"width": None, "roi_width": 5}`, the kwargs scan skips the
literally-present `"width"` key because its value is `None` and matches the
later candidate instead of returning `(None, "width")`. -/
theorem lookup_roi_value_counterexample :
    lookup_roi_value "width" [("kwargs", .vmap [("width", .null), ("roi_width", .int 5)])]
        [("width", ["width", "roi_width"])] true none
      = RoiResult.pair (.int 5) "roi_width"
    ∧ RoiResult.pair (Value.int 5) "roi_width" ≠ RoiResult.pair Value.null "width" := by
  constructor
  · rfl
  · simp

theorem first_present_non_null_ne_null (m : PyDict) (cs : List String) (v : Value) (c : String)
    (h : first_present_non_null m cs = some (v, c)) : v ≠ Value.null := by
  induction cs with
  | nil => simp [first_present_non_null] at h
  | cons hd tl ih =>
    rw [first_present_non_null] at h
    cases hv : alookup m hd with
    | none =>
      rw [hv] at h
      exact ih h
    | some w =>
      cases w with
      | null =>
        rw [hv] at h
        exact ih h
      | bool b => rw [hv] at h; injection h with h'; injection h' with h1 h2; subst h1; simp
      | int n => rw [hv] at h; injection h with h'; injection h' with h1 h2; subst h1; simp
      | float l => rw [hv] at h; injection h with h'; injection h' with h1 h2; subst h1; simp
      | str s => rw [hv] at h; injection h with h'; injection h' with h1 h2; subst h1; simp
      | vlist xs => rw [hv] at h; injection h with h'; injection h' with h1 h2; subst h1; simp
      | vmap e => rw [hv] at h; injection h with h'; injection h' with h1 h2; subst h1; simp

theorem first_in_avail_mem (cs avail : List String) (c : String)
    (h : first_in_avail cs avail = some c) : avail.contains c = true := by
  induction cs with
  | nil => simp [first_in_avail] at h
  | cons hd tl ih =>
    rw [first_in_avail] at h
    by_cases hm : avail.contains hd
    · rw [if_pos hm] at h
      injection h with h'
      subst h'
      exact hm
    · rw [if_neg hm] at h
      exact ih h

theorem avail_fallback_pair (cs : List String) (ik : Bool) (av : Option (List String))
    (v : Value) (c : String) (h : avail_fallback cs ik av = .pair v c) :
    ∃ l, av = some l ∧ l.contains c = true := by
  cases av with
  | none => simp [avail_fallback] at h
  | some l =>
    rw [avail_fallback] at h
    cases hf : first_in_avail cs l with
    | none => rw [hf] at h; simp at h
    | some c' =>
      rw [hf] at h
      cases ik with
      | false => simp at h
      | true =>
        simp at h
        exact ⟨l, rfl, h.2 ▸ first_in_avail_mem cs l c' hf⟩

theorem check_mapping_pair_null (cs : List String) (m : PyDict) (ik : Bool)
    (av : Option (List String)) (c : String)
    (h : check_mapping cs m ik av = .pair .null c) :
    ∃ l, av = some l ∧ l.contains c = true := by
  rw [check_mapping] at h
  cases hf : first_present_non_null m cs with
  | none =>
    rw [hf] at h
    exact avail_fallback_pair cs ik av .null c h
  | some vc =>
    rw [hf] at h
    obtain ⟨v, c'⟩ := vc
    cases ik with
    | false => simp at h
    | true =>
      simp at h
      exact absurd h.1 (first_present_non_null_ne_null m cs v c' hf)

theorem first_extract_pair_ne_null (item : Value) (ik : Bool) (cs : List String)
    (v : Value) (c : String) (h : first_extract item ik cs = .pair v c) :
    v ≠ Value.null := by
  induction cs with
  | nil => simp [first_extract] at h
  | cons hd tl ih =>
    rw [first_extract] at h
    cases he : extract_item_field item hd with
    | null => rw [he] at h; exact ih h
    | bool b => rw [he] at h; cases ik <;> simp at h; rw [← h.1]; simp
    | int n => rw [he] at h; cases ik <;> simp at h; rw [← h.1]; simp
    | float l => rw [he] at h; cases ik <;> simp at h; rw [← h.1]; simp
    | str s => rw [he] at h; cases ik <;> simp at h; rw [← h.1]; simp
    | vlist xs => rw [he] at h; cases ik <;> simp at h; rw [← h.1]; simp
    | vmap e => rw [he] at h; cases ik <;> simp at h; rw [← h.1]; simp

/-- C2 amended: `lookup_roi_value` never reports a literally-present
kwargs key holding `None` as a match: a present key with a `None` value is
skipped in favour of later candidates, the nested container, the resolver
fallback or the available-parameter fallback, and any returned match whose
value is `None` comes from that available-parameter fallback (its key is a
declared parameter name). -/
theorem check_kwargs_stage_pair_null (candidates : List String) (item : PyDict)
    (ik : Bool) (av : Option (List String)) (c : String)
    (h : check_kwargs_stage candidates item ik av = .pair .null c) :
    ∃ l, av = some l ∧ l.contains c = true := by
  unfold check_kwargs_stage at h
  split at h
  · exact check_mapping_pair_null _ _ _ _ _ h
  · simp at h

theorem check_nested_stage_pair_null (candidates : List String) (item : PyDict)
    (ik : Bool) (av : Option (List String)) (c : String)
    (h : check_nested_stage candidates item ik av = .pair .null c) :
    ∃ l, av = some l ∧ l.contains c = true := by
  unfold check_nested_stage at h
  split at h
  · split at h
    · exact check_mapping_pair_null _ _ _ _ _ h
    · simp at h
  · simp at h

theorem lookup_roi_value_null_match_only_from_avail
    (column_id : String) (item : PyDict) (roi_key_map : List (String × List String))
    (avail : Option (List String)) (c : String)
    (h : lookup_roi_value column_id item roi_key_map true avail = .pair .null c) :
    ∃ l, avail = some l ∧ l.contains c = true := by
  unfold lookup_roi_value at h
  generalize hcand : (match rlookup roi_key_map column_id with
    | some cs => cs
    | none => []) = candidates at h
  by_cases he : candidates.isEmpty
  · rw [if_pos he] at h
    simp at h
  · rw [if_neg he] at h
    cases h1 : check_kwargs_stage candidates item true avail with
    | pair v k =>
      rw [h1] at h
      simp at h
      obtain ⟨hv, hk⟩ := h
      subst hv; subst hk
      exact check_kwargs_stage_pair_null _ _ _ _ _ h1
    | val v => rw [h1] at h; simp at h
    | notFound =>
      rw [h1] at h
      cases h2 : check_nested_stage candidates item true avail with
      | pair v k =>
        rw [h2] at h
        simp at h
        obtain ⟨hv, hk⟩ := h
        subst hv; subst hk
        exact check_nested_stage_pair_null _ _ _ _ _ h2
      | val v => rw [h2] at h; simp at h
      | notFound =>
        rw [h2] at h
        cases h3 : first_extract (.vmap item) true candidates with
        | pair v k =>
          rw [h3] at h
          simp at h
          obtain ⟨hv, hk⟩ := h
          subst hv
          exact absurd rfl (first_extract_pair_ne_null _ _ _ _ _ h3)
        | val v => rw [h3] at h; simp at h
        | notFound =>
          rw [h3] at h
          exact avail_fallback_pair candidates true avail .null c h

theorem lookup_roi_value_null_match_witness :
    ∃ l, (some ["width"] : Option (List String)) = some l ∧ l.contains "width" = true :=
  lookup_roi_value_null_match_only_from_avail "width" [("kwargs", .vmap [("width", .null)])]
    [("width", ["width"])] (some ["width"]) "width" rfl

/-! ## C7: positional row-state classification -/

theorem value_eq_list_refl (xs : List Value) (h : ∀ x ∈ xs, value_eq x x = true) :
    value_eq_list xs xs = true := by
  induction xs with
  | nil => rw [value_eq_list]
  | cons hd tl ih =>
    rw [value_eq_list]
    simp only [Bool.and_eq_true]
    exact ⟨h hd (by simp), ih (fun x hx => h x (by simp [hx]))⟩

theorem value_eq_entries_refl (es : List (String × Value))
    (h : ∀ kv ∈ es, value_eq kv.2 kv.2 = true) : value_eq_entries es es = true := by
  induction es with
  | nil => rw [value_eq_entries]
  | cons hd tl ih =>
    obtain ⟨k, v⟩ := hd
    rw [value_eq_entries]
    simp only [Bool.and_eq_true, decide_eq_true_eq]
    exact ⟨⟨by trivial, h (k, v) (by simp)⟩, ih (fun kv hkv => h kv (by simp [hkv]))⟩

theorem value_eq_refl_aux : ∀ n : Nat, ∀ v : Value, sizeOf v ≤ n → value_eq v v = true := by
  intro n
  induction n using Nat.strong_induction_on with
  | _ n ih =>
    intro v hv
    cases v with
    | null => rw [value_eq]
    | bool b => rw [value_eq]; simp
    | int k => rw [value_eq]; simp
    | float l => rw [value_eq]; simp
    | str s => rw [value_eq]; simp
    | vlist xs =>
      rw [value_eq]
      apply value_eq_list_refl
      intro x hx
      have h1 : sizeOf x < sizeOf xs := List.sizeOf_lt_of_mem hx
      have h2 : sizeOf (Value.vlist xs) = 1 + sizeOf xs := by simp
      exact ih (sizeOf x) (by omega) x le_rfl
    | vmap es =>
      rw [value_eq]
      apply value_eq_entries_refl
      intro kv hkv
      have h1 : sizeOf kv < sizeOf es := List.sizeOf_lt_of_mem hkv
      have h2 : sizeOf kv.2 < sizeOf kv := by
        obtain ⟨k, v'⟩ := kv
        simp
      have h3 : sizeOf (Value.vmap es) = 1 + sizeOf es := by simp
      exact ih (sizeOf kv.2) (by omega) kv.2 le_rfl

/-- Python `==` is reflexive on values. -/
theorem value_eq_refl (v : Value) : value_eq v v = true :=
  value_eq_refl_aux (sizeOf v) v le_rfl

/-- A resolved uid is either truthy or exactly the empty string. -/
theorem get_uid_truthy_or_empty (x : Value) :
    truthy (get_uid x) = true ∨ get_uid x = .str "" := by
  unfold get_uid pyOr
  by_cases h1 : truthy (extract_item_field x "item_uid") = true
  · simp [h1]
  · simp only [Bool.not_eq_true] at h1
    by_cases h2 : truthy (extract_item_field x "uid") = true
    · simp [h1, h2]
    · simp only [Bool.not_eq_true] at h2
      simp [h1, h2]

theorem value_eq_str_empty_iff (v : Value) : value_eq v (.str "") = true ↔ v = .str "" := by
  cases v <;> simp [value_eq]

/-- The `running_uid != ""` test of `_rebuild_queue_table` agrees with the
truthiness test used for the row offset. -/
theorem get_uid_ne_empty_iff_truthy (x : Value) :
    (!(value_eq (get_uid x) (.str ""))) = truthy (get_uid x) := by
  rcases get_uid_truthy_or_empty x with h | h
  · cases hv : value_eq (get_uid x) (.str "")
    · simp [h]
    · have he : get_uid x = .str "" := (value_eq_str_empty_iff _).mp hv
      rw [he] at h
      simp [truthy] at h
  · rw [h, value_eq_refl]
    simp [truthy]

theorem enumerate_map_get (f : Nat → PyDict → String) :
    ∀ (l : List PyDict) (s i : Nat), (enumerate_map f s l).get? i = (l.get? i).map (f (s + i)) := by
  intro l
  induction l with
  | nil => intro s i; simp [enumerate_map]
  | cons hd tl ih =>
    intro s i
    cases i with
    | zero => simp [enumerate_map]
    | succ j =>
      rw [enumerate_map]
      simp only [List.get?]
      rw [ih (s + 1) j]
      have : s + 1 + j = s + (j + 1) := by omega
      rw [this]

/-- C7: row-state classification is positional.  Under the data-model
invariant that the running record's uid does not also resolve from any
pending or completed record, row 0 is RUNNING exactly when a running record
with a resolvable uid exists, the next `len(pending)` rows are PENDING, and
every remaining row is COMPLETED. -/
theorem queue_row_states_positional (running_item : PyDict)
    (pending_items completed_items : List PyDict) (row : Nat)
    (hdisj : truthy (get_uid (.vmap running_item)) = true →
      ∀ item ∈ pending_items ++ completed_items,
        value_eq (get_uid (.vmap item)) (get_uid (.vmap running_item)) = false)
    (hrow : row < (if truthy (get_uid (.vmap running_item)) = true then 1 else 0) +
      (pending_items.length + completed_items.length)) :
    (queue_row_states running_item pending_items completed_items
        pending_items.length).get? row
      = some (if truthy (get_uid (.vmap running_item)) = true ∧ row = 0 then
          QUEUE_ITEM_STATE_RUNNING
        else if row < (if truthy (get_uid (.vmap running_item)) = true then 1 else 0)
            + pending_items.length then QUEUE_ITEM_STATE_PENDING
        else QUEUE_ITEM_STATE_COMPLETED) := by
  by_cases htr : truthy (get_uid (.vmap running_item)) = true
  · simp only [queue_row_states, get_uid_ne_empty_iff_truthy, htr, if_true,
      enumerate_map_get, Nat.zero_add]
    cases row with
    | zero =>
      simp [value_eq_refl, htr]
    | succ j =>
      rw [if_pos htr] at hrow
      simp only [List.get?]
      cases hget : (pending_items ++ completed_items).get? j with
      | none =>
        have hlen := List.get?_eq_none.mp hget
        rw [List.length_append] at hlen
        omega
      | some item =>
        have hmem : item ∈ pending_items ++ completed_items := List.get?_mem hget
        have hne := hdisj htr item hmem
        simp only [Option.map_some']
        congr 1
        rw [hne]
        rw [if_neg (by simp : ¬ ((true && false) = true))]
        rw [if_neg (by simp : ¬ (True ∧ j + 1 = 0))]
        by_cases hp : j < pending_items.length
        · rw [if_pos (by push_cast; omega), if_pos (by omega)]
        · rw [if_neg (by push_cast; omega), if_neg (by omega)]
  · have htr' : truthy (get_uid (.vmap running_item)) = false := by
      simpa using htr
    simp only [queue_row_states, get_uid_ne_empty_iff_truthy, htr', Bool.false_eq_true,
      if_false, enumerate_map_get, Nat.zero_add]
    rw [if_neg htr] at hrow
    cases hget : (pending_items ++ completed_items).get? row with
    | none =>
      have hlen := List.get?_eq_none.mp hget
      rw [List.length_append] at hlen
      omega
    | some item =>
      simp only [Option.map_some']
      congr 1
      rw [if_neg (by simp :
        ¬ ((false && value_eq (get_uid (Value.vmap item))
            (get_uid (Value.vmap running_item))) = true))]
      rw [if_neg (by simp : ¬ (False ∧ row = 0))]
      by_cases hp : row < pending_items.length
      · rw [if_pos (by omega), if_pos (by omega)]
      · rw [if_neg (by omega), if_neg (by omega)]

theorem queue_row_states_positional_witness :
    (queue_row_states [("item_uid", .str "R")]
        [[("item_uid", .str "A")], [("item_uid", .str "B")], [("item_uid", .str "C")]]
        [[("item_uid", .str "D")]] 3).get? 0 = some QUEUE_ITEM_STATE_RUNNING
    ∧ (queue_row_states [("item_uid", .str "R")]
        [[("item_uid", .str "A")], [("item_uid", .str "B")], [("item_uid", .str "C")]]
        [[("item_uid", .str "D")]] 3).get? 1 = some QUEUE_ITEM_STATE_PENDING
    ∧ (queue_row_states [("item_uid", .str "R")]
        [[("item_uid", .str "A")], [("item_uid", .str "B")], [("item_uid", .str "C")]]
        [[("item_uid", .str "D")]] 3).get? 2 = some QUEUE_ITEM_STATE_PENDING
    ∧ (queue_row_states [("item_uid", .str "R")]
        [[("item_uid", .str "A")], [("item_uid", .str "B")], [("item_uid", .str "C")]]
        [[("item_uid", .str "D")]] 3).get? 3 = some QUEUE_ITEM_STATE_PENDING := by
  have hd : truthy (get_uid (.vmap [("item_uid", Value.str "R")])) = true →
      ∀ item ∈ ([[("item_uid", Value.str "A")], [("item_uid", Value.str "B")],
          [("item_uid", Value.str "C")]] ++ [[("item_uid", Value.str "D")]]),
        value_eq (get_uid (.vmap item)) (get_uid (.vmap [("item_uid", Value.str "R")])) = false := by
    intro _ item hitem
    have hcases : item = [("item_uid", Value.str "A")] ∨ item = [("item_uid", Value.str "B")] ∨
        item = [("item_uid", Value.str "C")] ∨ item = [("item_uid", Value.str "D")] := by
      simpa using hitem
    rcases hcases with rfl | rfl | rfl | rfl <;>
      simp [get_uid, extract_item_field, extract_candidates, resolve_path, alookup,
        pyOr, truthy, value_eq]
  refine ⟨?_, ?_, ?_, ?_⟩
  · have h := queue_row_states_positional [("item_uid", .str "R")]
      [[("item_uid", .str "A")], [("item_uid", .str "B")], [("item_uid", .str "C")]]
      [[("item_uid", .str "D")]] 0 hd (by simp [get_uid, extract_item_field,
        extract_candidates, resolve_path, alookup, pyOr, truthy])
    simpa [get_uid, extract_item_field, extract_candidates, resolve_path, alookup,
      pyOr, truthy] using h
  · have h := queue_row_states_positional [("item_uid", .str "R")]
      [[("item_uid", .str "A")], [("item_uid", .str "B")], [("item_uid", .str "C")]]
      [[("item_uid", .str "D")]] 1 hd (by simp [get_uid, extract_item_field,
        extract_candidates, resolve_path, alookup, pyOr, truthy])
    simpa [get_uid, extract_item_field, extract_candidates, resolve_path, alookup,
      pyOr, truthy] using h
  · have h := queue_row_states_positional [("item_uid", .str "R")]
      [[("item_uid", .str "A")], [("item_uid", .str "B")], [("item_uid", .str "C")]]
      [[("item_uid", .str "D")]] 2 hd (by simp [get_uid, extract_item_field,
        extract_candidates, resolve_path, alookup, pyOr, truthy])
    simpa [get_uid, extract_item_field, extract_candidates, resolve_path, alookup,
      pyOr, truthy] using h
  · have h := queue_row_states_positional [("item_uid", .str "R")]
      [[("item_uid", .str "A")], [("item_uid", .str "B")], [("item_uid", .str "C")]]
      [[("item_uid", .str "D")]] 3 hd (by simp [get_uid, extract_item_field,
        extract_candidates, resolve_path, alookup, pyOr, truthy])
    simpa [get_uid, extract_item_field, extract_candidates, resolve_path, alookup,
      pyOr, truthy] using h

/-! ## C9: `apply_item_edit` for keys outside the alias map -/

/-- C9 counterexample: on the record `{"item": {}}` with key `"foo"` (not an
alias-map column, key present nowhere), the edit succeeds but the coerced
value is inserted into the nested container's kwargs
(`{"item": {"kwargs": {"foo": "v"}}}`); the record's own top-level `kwargs`
mapping is never created, contradicting the claimed insertion target. -/
theorem apply_item_edit_insertion_counterexample :
    apply_item_edit 0 [("item", .vmap [])] "foo" "v" "plan" [] []
        = .ok (some [("item", .vmap [("kwargs", .vmap [("foo", .str "v")])])])
      ∧ alookup [("item", Value.vmap [("kwargs", Value.vmap [("foo", Value.str "v")])])]
          "kwargs" = none := by
  constructor
  · simp [apply_item_edit, apply_item_edit_nested, coerce_for_key, plookup, set_if_exists,
      acontains, alookup, rlookup, ensure_kwargs_container, aset, kwargs_direct_hit,
      nested_mapping_at]
  · rfl

theorem apply_item_edit_nonroi_succeeds_aux
    (column_id text_value plan_name : String) (plan_definitions : PlanDefs)
    (roi_key_map : List (String × List String)) (v : Value)
    (hcoerce : coerce_for_key plan_definitions plan_name column_id text_value = .ok v)
    (hroi : rlookup roi_key_map column_id = none) :
    ∀ n (item : PyDict), sizeOf item ≤ n → ∀ fuel,
      ∃ item', apply_item_edit fuel item column_id text_value plan_name plan_definitions
        roi_key_map = .ok (some item') := by
  intro n
  induction n using Nat.strong_induction_on with
  | _ n ih =>
    intro item hsize fuel
    cases hset : set_if_exists item column_id v with
    | some item' => exact ⟨item', by simp only [apply_item_edit, hcoerce, hset]⟩
    | none =>
      cases hkw : kwargs_direct_hit item column_id v with
      | some item' => exact ⟨item', by simp only [apply_item_edit, hcoerce, hset, hkw]⟩
      | none =>
        have hn : ∀ (keys : List String),
            ∃ item', apply_item_edit_nested fuel item keys column_id v text_value plan_name
              plan_definitions roi_key_map = .ok (some item') := by
          intro keys
          induction keys with
          | nil => exact ⟨_, by rw [apply_item_edit_nested]⟩
          | cons k rest ihk =>
            cases hnm : nested_mapping_at item k with
            | some nested =>
              have hlt : sizeOf nested < sizeOf item := sizeOf_nested_mapping_at hnm
              obtain ⟨nested', hne⟩ := ih (sizeOf nested) (by omega) nested le_rfl fuel
              refine ⟨aset item k (.vmap nested'), ?_⟩
              simp only [apply_item_edit_nested]
              split
              next nested2 heq =>
                rw [hnm] at heq
                injection heq with heq'
                subst heq'
                simp only [hne]
              next heq =>
                rw [hnm] at heq
                exact Option.noConfusion heq
            | none =>
              obtain ⟨item', hi⟩ := ihk
              refine ⟨item', ?_⟩
              simp only [apply_item_edit_nested]
              split
              next nested heq =>
                rw [hnm] at heq
                exact Option.noConfusion heq
              next heq => exact hi
        obtain ⟨item', hi⟩ := hn ["item", "metadata", "result"]
        exact ⟨item', by simp only [apply_item_edit, hcoerce, hset, hkw, hroi, hi]⟩

/-- C9 amended: for a key that is not an alias-map column id, once coercion
succeeds `apply_item_edit` always returns `True`; and the coerced value is
inserted into the record's own kwargs mapping (created when absent or not a
mapping) only when the key is present neither at top level nor in the
existing kwargs and the record has no nested `item`/`metadata`/`result`
mapping — otherwise the edit recurses into the first such nested container
instead. -/
theorem apply_item_edit_nonroi_key (fuel : Nat) (item : PyDict)
    (column_id text_value plan_name : String) (plan_definitions : PlanDefs)
    (roi_key_map : List (String × List String)) (v : Value)
    (hroi : rlookup roi_key_map column_id = none)
    (hcoerce : coerce_for_key plan_definitions plan_name column_id text_value = .ok v) :
    (∃ item', apply_item_edit fuel item column_id text_value plan_name plan_definitions
        roi_key_map = .ok (some item'))
    ∧ (acontains item column_id = false →
       kwargs_direct_hit item column_id v = none →
       nested_mapping_at item "item" = none →
       nested_mapping_at item "metadata" = none →
       nested_mapping_at item "result" = none →
       apply_item_edit fuel item column_id text_value plan_name plan_definitions roi_key_map
         = .ok (some (aset (ensure_kwargs_container item).2 "kwargs"
             (.vmap (aset (ensure_kwargs_container item).1 column_id v))))) := by
  constructor
  · exact apply_item_edit_nonroi_succeeds_aux column_id text_value plan_name plan_definitions
      roi_key_map v hcoerce hroi (sizeOf item) item le_rfl fuel
  · intro h1 h2 h3 h4 h5
    have hset : set_if_exists item column_id v = none := by
      simp [set_if_exists, h1]
    simp only [apply_item_edit, hcoerce, hset, h2, hroi]
    simp only [apply_item_edit_nested]
    split
    next nested heq =>
      rw [h3] at heq
      exact Option.noConfusion heq
    next heq =>
      split
      next nested heq2 =>
        rw [h4] at heq2
        exact Option.noConfusion heq2
      next heq2 =>
        split
        next nested heq3 =>
          rw [h5] at heq3
          exact Option.noConfusion heq3
        next heq3 => rfl

theorem apply_item_edit_nonroi_key_witness :
    ∃ item', apply_item_edit 0 [("a", Value.int 1)] "foo" "v" "" [] []
      = .ok (some item') :=
  (apply_item_edit_nonroi_key 0 [("a", Value.int 1)] "foo" "v" "" [] [] (.str "v")
    rfl rfl).1

/-! ## C4: rollback on remote failure -/

theorem list_set_getD_self {α : Type} (l : List α) (n : Nat) (d : α) (h : n < l.length) :
    l.set n (l.getD n d) = l := by
  induction l generalizing n with
  | nil => simp at h
  | cons hd tl ih =>
    cases n with
    | zero => simp [List.set, List.getD]
    | succ m =>
      simp only [List.length_cons] at h
      simp [List.set, List.getD] at ih ⊢
      exact ih m (by omega)

/-- C4: when the remote update call throws (transport failure) or returns an
explicit `success: false` response, `_handle_item_changed` restores the
pending raw record list exactly — the edited record at the target row is
rolled back byte-for-byte to the deep-copied pre-edit snapshot and no other
row is touched. -/
theorem handle_item_changed_remote_failure_rollback
    (st : PendingState) (running_item : PyDict) (columns : List QueueColumnSpec)
    (cell_row : Nat) (column_index : Nat) (cell_column_id cell_kwarg_key : Option String)
    (new_text old_text : String) (row_values : List (String × String))
    (plan_definitions : PlanDefs) (roi_key_map : List (String × List String))
    (fuel : Nat) (remote : RemoteOutcome) (rowN : Nat) (raw' payload : PyDict)
    (hoffrow : (cell_row : Int) -
      (if !(value_eq (get_uid (.vmap running_item)) (.str "")) then (1 : Int) else 0)
      = (rowN : Nat))
    (hlen : rowN < st.pending_raw_items.length)
    (hcol : column_index < columns.length)
    (htext : new_text ≠ old_text)
    (happly : apply_item_edit fuel (st.pending_raw_items.getD rowN [])
      (match cell_kwarg_key with
       | some s => if s ≠ "" then s else
          (match cell_column_id with
           | some s' => s'
           | none => (((columns.get? column_index).map QueueColumnSpec.column_id).getD ""))
       | none =>
          (match cell_column_id with
           | some s' => s'
           | none => (((columns.get? column_index).map QueueColumnSpec.column_id).getD "")))
      new_text (extract_plan_name (.vmap (st.pending_raw_items.getD rowN [])))
      plan_definitions roi_key_map = .ok (some raw'))
    (hpayload : build_update_payload (.vmap raw') row_values ["name", "status"]
      plan_definitions (extract_plan_name (.vmap (st.pending_raw_items.getD rowN [])))
      = .ok payload)
    (hfail : remote = .throws ∨
      ∃ m, remote = .resp (.vmap m) ∧
        truthy (match alookup m "success" with
          | some sv => sv
          | none => .bool false) = false) :
    (handle_item_changed st running_item columns cell_row column_index cell_column_id
      cell_kwarg_key new_text old_text row_values plan_definitions roi_key_map fuel
      remote).pending_raw_items = st.pending_raw_items := by
  simp only [handle_item_changed, hoffrow]
  rw [if_neg (by omega : ¬ ((rowN : Int) < 0))]
  simp only [Int.toNat_natCast]
  rw [if_neg (by omega : ¬ (rowN ≥ st.pending_raw_items.length))]
  rw [if_neg (by omega : ¬ (column_index ≥ columns.length))]
  rw [if_neg htext]
  simp only [happly]
  have hrestore : (st.pending_raw_items.set rowN raw').set rowN
      (st.pending_raw_items.getD rowN []) = st.pending_raw_items := by
    rw [List.set_set]
    exact list_set_getD_self _ _ _ hlen
  have hset_getD : st.pending_raw_items.set rowN (st.pending_raw_items[rowN]?.getD [])
      = st.pending_raw_items := by
    have h0 := list_set_getD_self st.pending_raw_items rowN [] hlen
    simpa [List.getD] using h0
  rcases hfail with rfl | ⟨m, rfl, hsucc⟩
  · simp only [hpayload]
    simp only [revert_pending_edit, clone_item]
    have hc : (0 : Int) ≤ (rowN : Int) ∧
        (rowN : Int) < ((st.pending_raw_items.set rowN raw').length : Int) := by
      constructor
      · omega
      · rw [List.length_set]
        omega
    rw [if_pos hc]
    split <;> simpa using list_set_getD_self st.pending_raw_items rowN [] hlen
  · simp only [hpayload]
    simp only [hsucc, Bool.false_eq_true, if_false]
    simpa using hrestore

theorem handle_item_changed_remote_failure_rollback_witness :
    (handle_item_changed
        ⟨[[("uid", .str "u"), ("kwargs", .vmap [("x", .int 1)])]],
         [[("uid", .str "u"), ("kwargs", .vmap [("x", .int 1)])]]⟩
        [] [⟨"x", "X", true⟩] 0 0 (some "x") none "2" "1" [("x", "2")] [] [] 0
        (.resp (.vmap [("success", .bool false)]))).pending_raw_items
      = [[("uid", Value.str "u"), ("kwargs", Value.vmap [("x", Value.int 1)])]] :=
  handle_item_changed_remote_failure_rollback
    ⟨[[("uid", .str "u"), ("kwargs", .vmap [("x", .int 1)])]],
     [[("uid", .str "u"), ("kwargs", .vmap [("x", .int 1)])]]⟩
    [] [⟨"x", "X", true⟩] 0 0 (some "x") none "2" "1" [("x", "2")] [] [] 0
    (.resp (.vmap [("success", .bool false)])) 0
    [("uid", .str "u"), ("kwargs", .vmap [("x", .str "2")])]
    [("uid", .str "u"), ("kwargs", .vmap [("x", .str "2")])]
    (by simp [get_uid, extract_item_field, extract_candidates, resolve_path, alookup,
      pyOr, truthy, value_eq])
    (by simp) (by simp) (by decide)
    (by simp [apply_item_edit, kwargs_direct_hit, coerce_for_key, plookup, set_if_exists,
      acontains, alookup, aset, extract_plan_name, extract_item_field, extract_candidates,
      resolve_path, pyOr, truthy, pyStr])
    (by rfl)
    (Or.inr ⟨[("success", .bool false)], rfl, rfl⟩)

/-! ## C10: `build_update_payload` -/

theorem alookup_aremove_ne (m : PyDict) (k k' : String) (h : k' ≠ k) :
    alookup (aremove m k) k' = alookup m k' := by
  induction m with
  | nil => simp [aremove]
  | cons hd tl ih =>
    obtain ⟨k0, v0⟩ := hd
    by_cases hk : k = k0
    · subst hk
      simp [aremove, alookup, h]
    · by_cases hk' : k' = k0
      · simp [aremove, alookup, hk, hk']
      · simp [aremove, alookup, hk, hk', ih]

theorem aremove_map_fst_sublist (m : PyDict) (k : String) :
    ((aremove m k).map Prod.fst).Sublist (m.map Prod.fst) := by
  induction m with
  | nil => simp [aremove]
  | cons hd tl ih =>
    obtain ⟨k0, v0⟩ := hd
    by_cases hk : k = k0
    · simp [aremove, hk]
    · simp only [aremove, hk, if_false, List.map_cons]
      exact List.Sublist.cons₂ _ ih

theorem alookup_eq_none_of_not_mem_keys (m : PyDict) (k : String)
    (h : k ∉ m.map Prod.fst) : alookup m k = none := by
  induction m with
  | nil => rfl
  | cons hd tl ih =>
    obtain ⟨k0, v0⟩ := hd
    simp only [List.map_cons, List.mem_cons] at h
    push_neg at h
    rw [alookup, if_neg h.1]
    exact ih h.2

theorem alookup_aremove_self (m : PyDict) (k : String)
    (hnodup : (m.map Prod.fst).Nodup) : alookup (aremove m k) k = none := by
  induction m with
  | nil => simp [aremove, alookup]
  | cons hd tl ih =>
    obtain ⟨k0, v0⟩ := hd
    simp only [List.map_cons, List.nodup_cons] at hnodup
    by_cases hk : k = k0
    · subst hk
      have he : aremove ((k, v0) :: tl) k = tl := by
        rw [aremove]
        simp
      rw [he]
      exact alookup_eq_none_of_not_mem_keys tl k hnodup.1
    · rw [aremove, if_neg hk, alookup, if_neg hk]
      exact ih hnodup.2

theorem alookup_foldl_aremove (ks : List String) (m : PyDict) (key : String)
    (hnodup : (m.map Prod.fst).Nodup) :
    alookup (ks.foldl aremove m) key = if key ∈ ks then none else alookup m key := by
  induction ks generalizing m with
  | nil => simp
  | cons k rest ih =>
    have hnodup' : (((aremove m k)).map Prod.fst).Nodup :=
      hnodup.sublist (aremove_map_fst_sublist m k)
    rw [List.foldl_cons, ih (aremove m k) hnodup']
    by_cases hmem : key ∈ rest
    · simp [hmem]
    · by_cases hk : key = k
      · subst hk
        simp [hmem, alookup_aremove_self m key hnodup]
      · simp [hmem, hk, alookup_aremove_ne m k key hk]

theorem alookup_foldl_aset_not_mem (ups : List (String × Value)) (m0 : PyDict) (key : String)
    (h : key ∉ ups.map Prod.fst) :
    alookup (ups.foldl (fun m kv => aset m kv.1 kv.2) m0) key = alookup m0 key := by
  induction ups generalizing m0 with
  | nil => simp
  | cons hd tl ih =>
    obtain ⟨k0, w0⟩ := hd
    simp only [List.map_cons, List.mem_cons] at h
    push_neg at h
    rw [List.foldl_cons, ih (aset m0 k0 w0) h.2]
    exact alookup_aset_ne m0 k0 key w0 h.1

theorem alookup_foldl_aset_mem (ups : List (String × Value)) (m0 : PyDict)
    (key : String) (w : Value) (hnodup : (ups.map Prod.fst).Nodup)
    (hmem : (key, w) ∈ ups) :
    alookup (ups.foldl (fun m kv => aset m kv.1 kv.2) m0) key = some w := by
  induction ups generalizing m0 with
  | nil => simp at hmem
  | cons hd tl ih =>
    obtain ⟨k0, w0⟩ := hd
    simp only [List.map_cons, List.nodup_cons] at hnodup
    rw [List.foldl_cons]
    rcases List.mem_cons.mp hmem with heq | htl
    · injection heq with h1 h2
      subst h1; subst h2
      rw [alookup_foldl_aset_not_mem tl (aset m0 key w) key hnodup.1]
      exact alookup_aset_self m0 key w
    · exact ih (aset m0 k0 w0) hnodup.2 htl

theorem build_update_entries_spec (plan : Option PlanDefinition) (exclude : List String) :
    ∀ (rows : List (String × String)) (ups : List (String × Value)) (rems : List String),
      (rows.map Prod.fst).Nodup →
      build_update_entries plan exclude rows = .ok (ups, rems) →
      (ups.map Prod.fst).Sublist (rows.map Prod.fst)
      ∧ (∀ key value, (key, value) ∈ rows → exclude.contains key = false →
          pyStrip value = "" → key ∈ rems ∧ key ∉ ups.map Prod.fst)
      ∧ (∀ key value, (key, value) ∈ rows → exclude.contains key = false →
          pyStrip value ≠ "" →
          (match param_lookup_get plan key with
           | some p => ∃ w, p.coerce value = .ok w ∧ (key, w) ∈ ups
           | none => (key, .str value) ∈ ups)) := by
  intro rows
  induction rows with
  | nil =>
    intro ups rems _ h
    rw [build_update_entries] at h
    simp at h
    obtain ⟨h1, h2⟩ := h
    subst h1; subst h2
    refine ⟨by simp, by simp, by simp⟩
  | cons hd rest ih =>
    intro ups rems hnodup h
    obtain ⟨key0, value0⟩ := hd
    simp only [List.map_cons, List.nodup_cons] at hnodup
    rw [build_update_entries] at h
    by_cases hex : exclude.contains key0
    · rw [if_pos (by simpa using hex)] at h
      obtain ⟨S1, S2, S3⟩ := ih ups rems hnodup.2 h
      refine ⟨S1.trans (List.sublist_cons_self _ _), ?_, ?_⟩
      · intro key value hmem hexk hblank
        rcases List.mem_cons.mp hmem with heq | htl
        · injection heq with e1 e2
          subst e1; subst e2
          rw [hex] at hexk
          exact absurd hexk (by simp)
        · exact S2 key value htl hexk hblank
      · intro key value hmem hexk hnb
        rcases List.mem_cons.mp hmem with heq | htl
        · injection heq with e1 e2
          subst e1; subst e2
          rw [hex] at hexk
          exact absurd hexk (by simp)
        · exact S3 key value htl hexk hnb
    · rw [if_neg (by simpa using hex)] at h
      by_cases hblank0 : pyStrip value0 = ""
      · rw [if_pos hblank0] at h
        cases hrec : build_update_entries plan exclude rest with
        | error e =>
          rw [hrec] at h
          dsimp only [] at h
          exact absurd h (by simp)
        | ok pr =>
          rw [hrec] at h
          dsimp only [] at h
          obtain ⟨ups', rems'⟩ := pr
          simp at h
          obtain ⟨h1, h2⟩ := h
          subst h1; subst h2
          obtain ⟨S1, S2, S3⟩ := ih ups' rems' hnodup.2 hrec
          refine ⟨S1.trans (List.sublist_cons_self _ _), ?_, ?_⟩
          · intro key value hmem hexk hblank
            rcases List.mem_cons.mp hmem with heq | htl
            · injection heq with e1 e2
              subst e1; subst e2
              refine ⟨List.mem_cons_self _ _, ?_⟩
              intro hin
              exact hnodup.1 (S1.subset hin)
            · have hs := S2 key value htl hexk hblank
              exact ⟨List.mem_cons_of_mem _ hs.1, hs.2⟩
          · intro key value hmem hexk hnb
            rcases List.mem_cons.mp hmem with heq | htl
            · injection heq with e1 e2
              subst e1; subst e2
              exact absurd hblank0 hnb
            · exact S3 key value htl hexk hnb
      · rw [if_neg hblank0] at h
        cases hpar : param_lookup_get plan key0 with
        | some p =>
          rw [hpar] at h
          dsimp only [] at h
          cases hco : p.coerce value0 with
          | error e =>
            rw [hco] at h
            dsimp only [] at h
            exact absurd h (by simp)
          | ok w0 =>
            rw [hco] at h
            dsimp only [] at h
            cases hrec : build_update_entries plan exclude rest with
            | error e =>
              rw [hrec] at h
              dsimp only [] at h
              exact absurd h (by simp)
            | ok pr =>
              rw [hrec] at h
              dsimp only [] at h
              obtain ⟨ups', rems'⟩ := pr
              simp at h
              obtain ⟨h1, h2⟩ := h
              subst h1; subst h2
              obtain ⟨S1, S2, S3⟩ := ih ups' rems' hnodup.2 hrec
              refine ⟨List.Sublist.cons₂ _ S1, ?_, ?_⟩
              · intro key value hmem hexk hblank
                rcases List.mem_cons.mp hmem with heq | htl
                · injection heq with e1 e2
                  subst e1; subst e2
                  exact absurd hblank hblank0
                · have hs := S2 key value htl hexk hblank
                  refine ⟨hs.1, ?_⟩
                  simp only [List.map_cons, List.mem_cons]
                  push_neg
                  refine ⟨?_, hs.2⟩
                  intro he
                  subst he
                  exact hnodup.1 (List.mem_map_of_mem Prod.fst htl)
              · intro key value hmem hexk hnb
                rcases List.mem_cons.mp hmem with heq | htl
                · injection heq with e1 e2
                  subst e1; subst e2
                  rw [hpar]
                  exact ⟨w0, hco, List.mem_cons_self _ _⟩
                · have hs := S3 key value htl hexk hnb
                  cases hp2 : param_lookup_get plan key with
                  | some p2 =>
                    rw [hp2] at hs
                    obtain ⟨w, hw, hwmem⟩ := hs
                    exact ⟨w, hw, List.mem_cons_of_mem _ hwmem⟩
                  | none =>
                    rw [hp2] at hs
                    exact List.mem_cons_of_mem _ hs
        | none =>
          rw [hpar] at h
          dsimp only [] at h
          cases hrec : build_update_entries plan exclude rest with
          | error e =>
            rw [hrec] at h
            dsimp only [] at h
            exact absurd h (by simp)
          | ok pr =>
            rw [hrec] at h
            dsimp only [] at h
            obtain ⟨ups', rems'⟩ := pr
            simp at h
            obtain ⟨h1, h2⟩ := h
            subst h1; subst h2
            obtain ⟨S1, S2, S3⟩ := ih ups' rems' hnodup.2 hrec
            refine ⟨List.Sublist.cons₂ _ S1, ?_, ?_⟩
            · intro key value hmem hexk hblank
              rcases List.mem_cons.mp hmem with heq | htl
              · injection heq with e1 e2
                subst e1; subst e2
                exact absurd hblank hblank0
              · have hs := S2 key value htl hexk hblank
                refine ⟨hs.1, ?_⟩
                simp only [List.map_cons, List.mem_cons]
                push_neg
                refine ⟨?_, hs.2⟩
                intro he
                subst he
                exact hnodup.1 (List.mem_map_of_mem Prod.fst htl)
            · intro key value hmem hexk hnb
              rcases List.mem_cons.mp hmem with heq | htl
              · injection heq with e1 e2
                subst e1; subst e2
                rw [hpar]
                exact List.mem_cons_self _ _
              · have hs := S3 key value htl hexk hnb
                cases hp2 : param_lookup_get plan key with
                | some p2 =>
                  rw [hp2] at hs
                  obtain ⟨w, hw, hwmem⟩ := hs
                  exact ⟨w, hw, List.mem_cons_of_mem _ hwmem⟩
                | none =>
                  rw [hp2] at hs
                  exact List.mem_cons_of_mem _ hs

theorem alookup_ensure_kwargs_ne (item : PyDict) (k : String) (h : k ≠ "kwargs") :
    alookup (ensure_kwargs_container item).2 k = alookup item k := by
  unfold ensure_kwargs_container
  split
  · rfl
  · exact alookup_aset_ne item "kwargs" k _ h

/-- C10: in the payload built by `build_update_payload`, every non-excluded
row value that is an empty or whitespace-only string is removed from the
payload's kwargs mapping; every other non-excluded row value is written into
kwargs, coerced through the declared parameter when one exists and kept as
the raw string otherwise; and outside the `kwargs` binding the payload
agrees with the deep copy of the raw record (the source builds on
`clone_item(raw_item)` and mutates only that copy's kwargs container, so
the record passed in is never touched — in this embedding `deepcopy` is the
identity and the clause is the statement that only `kwargs` differs). -/
theorem build_update_payload_spec (raw_item : Value) (row_values : List (String × String))
    (exclude_keys : List String) (plan_definitions : PlanDefs) (plan_name : String)
    (payload : PyDict)
    (hnodup_rows : (row_values.map Prod.fst).Nodup)
    (hnodup_kwargs : (((ensure_kwargs_container (clone_item raw_item)).1).map Prod.fst).Nodup)
    (hok : build_update_payload raw_item row_values exclude_keys plan_definitions plan_name
      = .ok payload) :
    ∃ kw : PyDict, alookup payload "kwargs" = some (.vmap kw)
      ∧ (∀ key value, (key, value) ∈ row_values → exclude_keys.contains key = false →
          pyStrip value = "" → alookup kw key = none)
      ∧ (∀ key value, (key, value) ∈ row_values → exclude_keys.contains key = false →
          pyStrip value ≠ "" →
          (match param_lookup_get (plookup plan_definitions plan_name) key with
           | some p => ∃ w, p.coerce value = .ok w ∧ alookup kw key = some w
           | none => alookup kw key = some (.str value)))
      ∧ (∀ k, k ≠ "kwargs" → alookup payload k = alookup (clone_item raw_item) k) := by
  unfold build_update_payload at hok
  dsimp only [] at hok
  cases hbe : build_update_entries (plookup plan_definitions plan_name) exclude_keys
      row_values with
  | error e =>
    rw [hbe] at hok
    dsimp only [] at hok
    exact absurd hok (by simp)
  | ok ur =>
    rw [hbe] at hok
    dsimp only [] at hok
    obtain ⟨ups, rems⟩ := ur
    simp only [Except.ok.injEq] at hok
    obtain ⟨S1, S2, S3⟩ := build_update_entries_spec (plookup plan_definitions plan_name)
      exclude_keys row_values ups rems hnodup_rows hbe
    have hups_nodup : (ups.map Prod.fst).Nodup := hnodup_rows.sublist S1
    subst hok
    refine ⟨_, alookup_aset_self _ _ _, ?_, ?_, ?_⟩
    · intro key value hmem hexk hblank
      have hs := S2 key value hmem hexk hblank
      rw [alookup_foldl_aset_not_mem ups _ key hs.2]
      rw [alookup_foldl_aremove rems _ key hnodup_kwargs]
      simp [hs.1]
    · intro key value hmem hexk hnb
      have hs := S3 key value hmem hexk hnb
      cases hp : param_lookup_get (plookup plan_definitions plan_name) key with
      | some p =>
        rw [hp] at hs
        obtain ⟨w, hw, hwmem⟩ := hs
        exact ⟨w, hw, alookup_foldl_aset_mem ups _ key w hups_nodup hwmem⟩
      | none =>
        rw [hp] at hs
        exact alookup_foldl_aset_mem ups _ key (.str value) hups_nodup hs
    · intro k hk
      rw [alookup_aset_ne _ "kwargs" k _ hk]
      exact alookup_ensure_kwargs_ne _ k hk

theorem build_update_payload_spec_witness :
    ∃ kw : PyDict,
      alookup [("uid", Value.str "u"),
          ("kwargs", Value.vmap [("b", Value.int 2), ("c", Value.str "3")])] "kwargs"
        = some (.vmap kw)
      ∧ alookup kw "a" = none ∧ alookup kw "c" = some (.str "3") := by
  obtain ⟨kw, h1, h2, h3, h4⟩ := build_update_payload_spec
    (.vmap [("uid", .str "u"), ("kwargs", .vmap [("a", .int 1), ("b", .int 2)])])
    [("a", " "), ("c", "3")] ["name", "status"] [] "p"
    [("uid", .str "u"), ("kwargs", .vmap [("b", .int 2), ("c", .str "3")])]
    (by decide) (by decide) rfl
  refine ⟨kw, h1, ?_, ?_⟩
  · exact h2 "a" " " (by simp) (by decide) (by decide)
  · have h5 := h3 "c" "3" (by simp) (by decide) (by decide)
    simpa [param_lookup_get, plookup] using h5
